import Mathlib

/-!
Chorus-Plugin: the per-sample delay / chorus engine of `PluginProcessor.cpp`.

The C++ `float`/`double` arithmetic is idealised as exact arithmetic in a linearly
ordered field `α` with a floor function (`ℚ` for evaluation, `ℝ` for the analytic
statements).  The C library functions `std::sin`, `std::exp` and the constant
`juce::MathConstants<float>::pi` are supplied through `MathLib`.  The field model covers
finite values only; where a statement turns on the float special values (infinities and
NaN), the expression is embedded a second time over `IEEEFloat`.

`PluginProcessor.h` (the `CircularBuffer` class, `ChainSettings`, the member
declarations and the `leftChain`/`rightChain` types) is not among the sources; what is
taken from the specification instead is marked as such.  The two filter chains run
after the sample loop are reserved (`updateFilters` configures nothing) and are not
part of the embedding.
-/

namespace Chorus

/-- Library functions and constants the processor calls: `std::sin`, `std::exp`
and `juce::MathConstants<float>::pi`. -/
structure MathLib (α : Type) where
  sin : α → α
  exp : α → α
  pi : α

/-! ## Smoothed parameter (`juce::LinearSmoothedValue<float>`) -/

/-- Modelled from the spec: the Smoothed Parameter of §4.2 (the library class
`juce::LinearSmoothedValue`, whose code is not among the sources): a value that
ramps linearly to its target in `stepsToTarget` steps. -/
structure SmoothedValue (α : Type) where
  currentValue : α
  target : α
  step : α
  countdown : Int
  stepsToTarget : Int

namespace SmoothedValue

variable {α : Type} [LinearOrderedField α] [FloorRing α]

/-- Modelled from the spec: `isSmoothing()`, true while a ramp is in progress. -/
def isSmoothing (v : SmoothedValue α) : Bool := decide (0 < v.countdown)

/-- Modelled from the spec: `setCurrentAndTargetValue`, the only discontinuous jump. -/
def setCurrentAndTargetValue (v : SmoothedValue α) (newValue : α) : SmoothedValue α :=
  { v with target := newValue, currentValue := newValue, countdown := 0 }

/-- Modelled from the spec: `reset(sampleRate, rampLengthInSeconds)` of §4.2: the ramp
takes `floor (rampLengthInSeconds * sampleRate)` steps, and the value snaps to the
target held so far. -/
def reset (v : SmoothedValue α) (sampleRate rampLengthInSeconds : α) : SmoothedValue α :=
  setCurrentAndTargetValue { v with stepsToTarget := ⌊rampLengthInSeconds * sampleRate⌋ } v.target

/-- Modelled from the spec: `setTarget(value)` of §4.2: updates the convergence target
without resetting the current value. -/
def setTargetValue (v : SmoothedValue α) (newValue : α) : SmoothedValue α :=
  if newValue = v.target then v
  else if v.stepsToTarget ≤ 0 then setCurrentAndTargetValue v newValue
  else { v with target := newValue, countdown := v.stepsToTarget,
                step := (newValue - v.currentValue) / (v.stepsToTarget : α) }

/-- Modelled from the spec: `nextValue()` of §4.2: one step of the linear ramp, landing
exactly on the target with the last step; returns the value and the advanced state. -/
def getNextValue (v : SmoothedValue α) : α × SmoothedValue α :=
  if ¬ (0 < v.countdown) then (v.target, v)
  else if 0 < v.countdown - 1 then
    (v.currentValue + v.step,
      { v with countdown := v.countdown - 1, currentValue := v.currentValue + v.step })
  else (v.target, { v with countdown := v.countdown - 1, currentValue := v.target })

end SmoothedValue

/-! ## Circular delay buffer -/

/-- Modelled from the spec: the DelayLine of §3 / §4.1 (class `CircularBuffer` of the
missing `PluginProcessor.h`): a fixed-length sequence of samples and a write cursor. -/
structure CircularBuffer (α : Type) where
  buffer : List α
  writeIndex : Nat

namespace CircularBuffer

variable {α : Type} [LinearOrderedField α] [FloorRing α]

/-- Modelled from the spec: `getBufferLength()`, the capacity in samples. -/
def getBufferLength (b : CircularBuffer α) : Nat := b.buffer.length

/-- Modelled from the spec: `configure(capacityInSamples)` of §4.1: allocates storage,
resets the cursor and zero-fills; a non-positive capacity is `InvalidCapacity`. -/
def createCircularBuffer (capacityInSamples : Int) : Option (CircularBuffer α) :=
  if capacityInSamples ≤ 0 then none
  else some { buffer := List.replicate capacityInSamples.toNat 0, writeIndex := 0 }

/-- Modelled from the spec: clearing of §3: all zeros, cursor reset to 0. -/
def flushBuffer (b : CircularBuffer α) : CircularBuffer α :=
  { buffer := List.replicate b.buffer.length 0, writeIndex := 0 }

/-- Modelled from the spec: `write(sample)` of §4.1: stores the sample at the write
cursor, then advances the cursor by one position modulo the capacity. -/
def writeBuffer (b : CircularBuffer α) (sample : α) : CircularBuffer α :=
  { buffer := b.buffer.set b.writeIndex sample,
    writeIndex := (b.writeIndex + 1) % b.buffer.length }

/-- Modelled from the spec: the fractional read position `cursor - delayInSamples`
wrapped into `[0, capacity)` (§4.1). -/
def readPosition (b : CircularBuffer α) (delayInSamples : α) : α :=
  let pos := (b.writeIndex : α) - delayInSamples
  let cap := (b.buffer.length : α)
  pos - cap * (⌊pos / cap⌋ : α)

/-- Modelled from the spec: `read(delayInSamples)` of §4.1: the linearly interpolated
value between the two integer slots nearest to the read position. -/
def readBuffer (b : CircularBuffer α) (delayInSamples : α) : α :=
  let pos := readPosition b delayInSamples
  let i := ⌊pos⌋.toNat
  let frac := pos - (i : α)
  b.buffer.getD i 0 * (1 - frac) + b.buffer.getD ((i + 1) % b.buffer.length) 0 * frac

end CircularBuffer

/-! ## Parameter snapshot -/

/-- The per-block parameter snapshot `ChainSettings` (declared in the missing header;
the fields are those `getChainSettings` assigns). -/
structure ChainSettings (α : Type) where
  delayTimeLeft : α
  delayTimeRight : α
  depth : α
  rate : α
  dualDelay : Bool
  chorus : Bool

/-- The parameter store as `getChainSettings` sees it: the raw value of each parameter
id (`apvts.getRawParameterValue(id)->load()`); a bool parameter holds 1 when it is on
and 0 when it is off. -/
abbrev ParameterStore (α : Type) := String → α

section Engine

variable {α : Type} [LinearOrderedField α] [FloorRing α]

/-- The function `getChainSettings` (PluginProcessor.cpp 266-277). -/
def getChainSettings (apvts : ParameterStore α) : ChainSettings α :=
  { delayTimeLeft := apvts "Delay Left",
    delayTimeRight := apvts "Delay Right",
    depth := apvts "Depth",
    rate := apvts "Rate",
    dualDelay := decide (apvts "Dual Delay" < 1 / 2),
    chorus := decide (apvts "Chorus" < 1 / 2) }

/-- The mutable members of `ChorusAudioProcessor` that `prepareToPlay`, `processBlock`
and `applyChorus` read or write. -/
structure ChorusAudioProcessor (α : Type) where
  totalNumInputChannels : Nat
  totalNumOutputChannels : Nat
  currentSampleRate : α
  coeff : α
  coeff_chrs : α
  smoothedDelayTimeLeft : SmoothedValue α
  smoothedDelayTimeRight : SmoothedValue α
  smoothedChorusDepth : SmoothedValue α
  smoothedChorusRate : SmoothedValue α
  circBuffLeft : CircularBuffer α
  circBuffRight : CircularBuffer α
  delayTimeLeft : α
  delayTimeRight : α
  chorusDepth : α
  chorusRate : α
  chorusModulation : α
  chorusPhase : α
  writeIndexLeft : Nat
  writeIndexRight : Nat
  lastDelayTimeLeft : α
  lastDelayTimeRight : α

/-- The method `prepareToPlay` (PluginProcessor.cpp 101-122); `getSampleRate()` is the
rate the host passes.  A rejected capacity leaves the previous buffer in place. -/
def prepareToPlay (m : MathLib α) (sampleRate : α) (s : ChorusAudioProcessor α) :
    ChorusAudioProcessor α :=
  let currentSampleRate := sampleRate
  let capacity : Int := ⌊2 * currentSampleRate⌋
  { s with
    currentSampleRate := currentSampleRate
    coeff := 1 - m.exp (-1 / (1 / 10 * currentSampleRate))
    coeff_chrs := 1 - m.exp (-1 / (1 / 100 * currentSampleRate))
    smoothedDelayTimeLeft := s.smoothedDelayTimeLeft.reset currentSampleRate (3 / 10)
    smoothedDelayTimeRight := s.smoothedDelayTimeRight.reset currentSampleRate (3 / 10)
    smoothedChorusDepth := s.smoothedChorusDepth.reset currentSampleRate (5 / 1000)
    smoothedChorusRate := s.smoothedChorusRate.reset currentSampleRate (5 / 1000)
    circBuffLeft :=
      ((CircularBuffer.createCircularBuffer capacity).getD s.circBuffLeft).flushBuffer
    circBuffRight :=
      ((CircularBuffer.createCircularBuffer capacity).getD s.circBuffRight).flushBuffer }

/-- The loop `while (chorusPhase >= 2π) chorusPhase -= 2π` (PluginProcessor.cpp
296-297), with `fuel` bounding the number of tests; `none` when the fuel runs out. -/
def wrapPhase (twoPi : α) : Nat → α → Option α
  | 0, _ => none
  | fuel + 1, chorusPhase =>
    if chorusPhase ≥ twoPi then wrapPhase twoPi fuel (chorusPhase - twoPi)
    else some chorusPhase

/-- The method `applyChorus` (PluginProcessor.cpp 279-298). -/
def applyChorus (m : MathLib α) (fuel : Nat) (sample : Nat) (left : Bool)
    (s : ChorusAudioProcessor α) : Option (ChorusAudioProcessor α) :=
  let chorusModulation :=
    s.chorusDepth * m.sin (2 * m.pi * s.chorusRate * (sample : α) / s.currentSampleRate
      + s.chorusPhase)
  let s1 : ChorusAudioProcessor α :=
    if left then
      let newDelayTime := s.delayTimeLeft + chorusModulation
      { s with chorusModulation := chorusModulation
               delayTimeLeft := newDelayTime + (newDelayTime - s.delayTimeLeft) * s.coeff }
    else
      let newDelayTime := s.delayTimeRight + chorusModulation
      { s with chorusModulation := chorusModulation
               delayTimeRight := newDelayTime + (newDelayTime - s.delayTimeRight) * s.coeff }
  (wrapPhase (2 * m.pi) fuel (s1.chorusPhase + 2 * m.pi * s1.chorusRate / s1.currentSampleRate)).map
    fun chorusPhase => { s1 with chorusPhase := chorusPhase }

/-- The constant `dryWet` of `processBlock` (PluginProcessor.cpp 167). -/
def dryWet : α := 1

/-- The local `wetScale` of `processBlock` (PluginProcessor.cpp 198, 212). -/
def wetScale : α := (1 - dryWet) + dryWet * (1 / 2)

/-- The local `newDelayTimeLeft` of `processBlock` (PluginProcessor.cpp 172). -/
def newDelayTimeLeft (chainsettings : ChainSettings α) : α := chainsettings.delayTimeLeft

/-- The local `newDelayTimeRight` of `processBlock` (PluginProcessor.cpp 173). -/
def newDelayTimeRight (chainsettings : ChainSettings α) : α :=
  if chainsettings.dualDelay then chainsettings.delayTimeRight else chainsettings.delayTimeLeft

/-- Lines 175-178 of `processBlock`: the once-per-block follower update of the chorus
depth and rate (operands evaluated left to right). -/
def updateChorusParams (chainsettings : ChainSettings α) (s : ChorusAudioProcessor α) :
    ChorusAudioProcessor α :=
  let d0 := s.smoothedChorusDepth.setTargetValue chainsettings.depth
  let d1 := d0.getNextValue
  let d2 := d1.2.getNextValue
  let r0 := s.smoothedChorusRate.setTargetValue chainsettings.rate
  let r1 := r0.getNextValue
  let r2 := r1.2.getNextValue
  { s with
    smoothedChorusDepth := d2.2
    chorusDepth := d1.1 + (d2.1 - s.chorusDepth) * s.coeff_chrs
    smoothedChorusRate := r2.2
    chorusRate := r1.1 + (r2.1 - s.chorusRate) * s.coeff_chrs }

/-- Lines 190-191 (channel 0) and 204-205 (channel 1) of `processBlock`: the target
update and the one-pole follower of the channel's delay time (operands evaluated left
to right). -/
def followDelayTime (chainsettings : ChainSettings α) (left : Bool)
    (s : ChorusAudioProcessor α) : ChorusAudioProcessor α :=
  if left then
    let v0 := s.smoothedDelayTimeLeft.setTargetValue (newDelayTimeLeft chainsettings)
    let v1 := v0.getNextValue
    let v2 := v1.2.getNextValue
    { s with smoothedDelayTimeLeft := v2.2
             delayTimeLeft := v1.1 + (v2.1 - s.delayTimeLeft) * s.coeff }
  else
    let v0 := s.smoothedDelayTimeRight.setTargetValue (newDelayTimeRight chainsettings)
    let v1 := v0.getNextValue
    let v2 := v1.2.getNextValue
    { s with smoothedDelayTimeRight := v2.2
             delayTimeRight := v1.1 + (v2.1 - s.delayTimeRight) * s.coeff }

/-- The delay time of a channel. -/
def channelDelayTime (left : Bool) (s : ChorusAudioProcessor α) : α :=
  if left then s.delayTimeLeft else s.delayTimeRight

/-- The delay buffer of a channel. -/
def channelBuffer (left : Bool) (s : ChorusAudioProcessor α) : CircularBuffer α :=
  if left then s.circBuffLeft else s.circBuffRight

/-- Lines 190-194 (channel 0) and 204-208 (channel 1) of `processBlock`: follower
update, then the chorus call behind its guard. -/
def delayStage (m : MathLib α) (fuel : Nat) (chainsettings : ChainSettings α) (left : Bool)
    (sample : Nat) (s : ChorusAudioProcessor α) : Option (ChorusAudioProcessor α) :=
  let s1 := followDelayTime chainsettings left s
  if chainsettings.chorus ∧ channelDelayTime left s1 ≠ 0 then
    applyChorus m fuel sample left s1
  else some s1

/-- The argument of `writeBuffer` in `processBlock` (PluginProcessor.cpp 197, 211):
`inData[sample] + 0 * delayedSample`, on finite samples.  For an infinite or NaN
sample the float product `0 * delayedSample` is NaN; `writtenSampleIEEE` is the same
expression with those values. -/
def writtenSample (input delayedSample : α) : α := input + 0 * delayedSample

/-- Lines 196-200 (channel 0) and 210-214 (channel 1) of `processBlock`: read the
delayed sample, write the buffer, mix the output sample, advance the write index. -/
def mixStage (left : Bool) (input : α) (s : ChorusAudioProcessor α) :
    ChorusAudioProcessor α × α :=
  if left then
    let delayedSample :=
      s.circBuffLeft.readBuffer (s.delayTimeLeft * s.currentSampleRate / 1000)
    let circBuffLeft := s.circBuffLeft.writeBuffer (writtenSample input delayedSample)
    ({ s with circBuffLeft := circBuffLeft
              writeIndexLeft := (s.writeIndexLeft + 1) % circBuffLeft.getBufferLength },
      wetScale * input + dryWet * delayedSample)
  else
    let delayedSample :=
      s.circBuffRight.readBuffer (s.delayTimeRight * s.currentSampleRate / 1000)
    let circBuffRight := s.circBuffRight.writeBuffer (writtenSample input delayedSample)
    ({ s with circBuffRight := circBuffRight
              writeIndexRight := (s.writeIndexRight + 1) % circBuffRight.getBufferLength },
      wetScale * input + dryWet * delayedSample)

/-- The body of the sample loop of `processBlock` (PluginProcessor.cpp 187-215) for one
sample of one channel: the new state and the value left in `outData[sample]`.  Channels
other than 0 and 1 are not touched. -/
def processSample (m : MathLib α) (fuel : Nat) (chainsettings : ChainSettings α)
    (channel sample : Nat) (input : α) (s : ChorusAudioProcessor α) :
    Option (ChorusAudioProcessor α × α) :=
  if channel = 0 then
    (delayStage m fuel chainsettings true sample s).map (mixStage true input)
  else if channel = 1 then
    (delayStage m fuel chainsettings false sample s).map (mixStage false input)
  else some (s, input)

/-- The sample loop of `processBlock` (PluginProcessor.cpp 185-216) over the samples of
one channel, from index `sample` on. -/
def processSamples (m : MathLib α) (fuel : Nat) (chainsettings : ChainSettings α)
    (channel : Nat) : Nat → List α → ChorusAudioProcessor α →
    Option (ChorusAudioProcessor α × List α)
  | _, [], s => some (s, [])
  | sample, input :: rest, s =>
    match processSample m fuel chainsettings channel sample input s with
    | none => none
    | some (s1, out) =>
      match processSamples m fuel chainsettings channel (sample + 1) rest s1 with
      | none => none
      | some (s2, outs) => some (s2, out :: outs)

/-- The channel loop of `processBlock` (PluginProcessor.cpp 180-217), from channel
index `channel` on. -/
def processChannels (m : MathLib α) (fuel : Nat) (chainsettings : ChainSettings α) :
    Nat → List (List α) → ChorusAudioProcessor α →
    Option (ChorusAudioProcessor α × List (List α))
  | _, [], s => some (s, [])
  | channel, data :: rest, s =>
    match processSamples m fuel chainsettings channel 0 data s with
    | none => none
    | some (s1, out) =>
      match processChannels m fuel chainsettings (channel + 1) rest s1 with
      | none => none
      | some (s2, outs) => some (s2, out :: outs)

/-- Lines 160-161 of `processBlock`: output channels without input are cleared. -/
def clearExtraChannels (numIn numOut : Nat) : Nat → List (List α) → List (List α)
  | _, [] => []
  | i, data :: rest =>
    (if numIn ≤ i ∧ i < numOut then List.replicate data.length 0 else data)
      :: clearExtraChannels numIn numOut (i + 1) rest

/-- The method `processBlock` (PluginProcessor.cpp 157-229) on a buffer given as one
list of samples per channel. -/
def processBlock (m : MathLib α) (fuel : Nat) (apvts : ParameterStore α)
    (buffer : List (List α)) (s : ChorusAudioProcessor α) :
    Option (ChorusAudioProcessor α × List (List α)) :=
  let cleared := clearExtraChannels s.totalNumInputChannels s.totalNumOutputChannels 0 buffer
  let chainsettings := getChainSettings apvts
  let s1 := updateChorusParams chainsettings s
  (processChannels m fuel chainsettings 0 cleared s1).map fun r =>
    ({ r.1 with lastDelayTimeLeft := newDelayTimeLeft chainsettings
                lastDelayTimeRight := newDelayTimeRight chainsettings }, r.2)

/-- The raw value an `AudioParameterBool` stores: 1 when on, 0 when off. -/
def boolRaw (b : Bool) : α := if b then 1 else 0

/-- The parameter store holding the defaults of `createParameters`
(PluginProcessor.cpp 319-324). -/
def defaultParameters : ParameterStore α := fun id =>
  if id = "Delay Left" then 25
  else if id = "Delay Right" then 15
  else if id = "Depth" then 1 / 4
  else if id = "Rate" then 3 / 2
  else if id = "Dual Delay" then boolRaw true
  else if id = "Chorus" then boolRaw false
  else 0

/-- A smoothed parameter at rest on `value`, with a ramp of `steps` steps. -/
def restingAt (value : α) (steps : Int) : SmoothedValue α :=
  { currentValue := value, target := value, step := 0, countdown := 0, stepsToTarget := steps }

/-- A stereo processor state as `prepareToPlay` leaves it at 48000 Hz, with the smoothed
parameters and their followers at rest on the targets the default parameters give (both
delay times 25 ms, the right channel mirroring the left), the flushed buffers of 96000
samples, and chorus phase and modulation 0. -/
def settledState (m : MathLib α) : ChorusAudioProcessor α :=
  { totalNumInputChannels := 2
    totalNumOutputChannels := 2
    currentSampleRate := 48000
    coeff := 1 - m.exp (-1 / (1 / 10 * 48000))
    coeff_chrs := 1 - m.exp (-1 / (1 / 100 * 48000))
    smoothedDelayTimeLeft := restingAt 25 14400
    smoothedDelayTimeRight := restingAt 25 14400
    smoothedChorusDepth := restingAt (1 / 4) 240
    smoothedChorusRate := restingAt (3 / 2) 240
    circBuffLeft := { buffer := List.replicate 96000 0, writeIndex := 0 }
    circBuffRight := { buffer := List.replicate 96000 0, writeIndex := 0 }
    delayTimeLeft := 25
    delayTimeRight := 25
    chorusDepth := 1 / 4
    chorusRate := 3 / 2
    chorusModulation := 0
    chorusPhase := 0
    writeIndexLeft := 0
    writeIndexRight := 0
    lastDelayTimeLeft := 25
    lastDelayTimeRight := 25 }

/-- The left channel `n` samples after a unit impulse entered a fresh buffer at 48000 Hz
with the delay time at rest on 25 ms: slot 0 holds the impulse, every other slot holds
0, and the write cursor is at `n`. -/
def impulseInFlight (n : Nat) (s : ChorusAudioProcessor α) : Prop :=
  s.currentSampleRate = 48000 ∧ s.delayTimeLeft = 25 ∧
  s.smoothedDelayTimeLeft.target = 25 ∧ s.smoothedDelayTimeLeft.countdown ≤ 0 ∧
  s.circBuffLeft.writeIndex = n ∧ s.circBuffLeft.buffer.length = 96000 ∧
  s.circBuffLeft.buffer.getD 0 0 = 1 ∧ ∀ i : Nat, 1 ≤ i → s.circBuffLeft.buffer.getD i 0 = 0

/-- The engine with every smoothed parameter at rest on the block's targets and the
chorus running: the chorus flag is on, depth and rate sit on their targets, both delay
times stay within 1 ms of targets of at least 5 ms, the follower coefficient lies in
`[0, 1/2]`, the sine is bounded by 1, and the input and output channel counts agree. -/
def chorusAtRest (m : MathLib α) (cs : ChainSettings α) (s : ChorusAudioProcessor α) : Prop :=
  (cs.chorus = true ∧ |cs.depth| ≤ 1 / 4 ∧ 0 ≤ cs.rate ∧
    5 ≤ newDelayTimeLeft cs ∧ 5 ≤ newDelayTimeRight cs ∧
    0 < m.pi ∧ ∀ x : α, |m.sin x| ≤ 1) ∧
  (s.smoothedChorusDepth.target = cs.depth ∧ s.smoothedChorusDepth.countdown ≤ 0 ∧
    s.chorusDepth = cs.depth ∧
    s.smoothedChorusRate.target = cs.rate ∧ s.smoothedChorusRate.countdown ≤ 0 ∧
    s.chorusRate = cs.rate) ∧
  (s.smoothedDelayTimeLeft.target = newDelayTimeLeft cs ∧
    s.smoothedDelayTimeLeft.countdown ≤ 0 ∧
    s.smoothedDelayTimeRight.target = newDelayTimeRight cs ∧
    s.smoothedDelayTimeRight.countdown ≤ 0) ∧
  (|s.delayTimeLeft - newDelayTimeLeft cs| ≤ 1 ∧
    |s.delayTimeRight - newDelayTimeRight cs| ≤ 1) ∧
  (0 ≤ s.coeff ∧ s.coeff ≤ 1 / 2 ∧ 0 < s.currentSampleRate ∧
    s.totalNumInputChannels = s.totalNumOutputChannels)

end Engine

/-- Rational stand-ins for `std::sin`, `std::exp` and pi, used to evaluate the
engine on concrete inputs. -/
def ratMath : MathLib ℚ :=
  { sin := fun x => x - x ^ 3 / 6, exp := fun x => 1 + x + x ^ 2 / 2, pi := 355 / 113 }

/-! ## Parameter layout -/

/-- The three kinds of parameter `createParameters` builds. -/
inductive ParameterKind where
  | intParameter
  | floatParameter
  | boolParameter
  deriving DecidableEq

/-- The parameter objects `createParameters` pushes: `juce::AudioParameterInt`
(id, name, min, max, default), `juce::AudioParameterFloat` (id, name, the
`NormalisableRange` start, end, interval and skew, default) and
`juce::AudioParameterBool` (id, name, default). -/
inductive RangedAudioParameter (α : Type) where
  | audioParameterInt (parameterID name : String) (minValue maxValue defaultValue : Int)
  | audioParameterFloat (parameterID name : String)
      (rangeStart rangeEnd intervalValue skewFactor defaultValue : α)
  | audioParameterBool (parameterID name : String) (defaultValue : Bool)

section Layout

variable {α : Type} [LinearOrderedField α]

/-- The method `createParameters` (PluginProcessor.cpp 315-327): the parameters in the
order they are pushed. -/
def createParameters : List (RangedAudioParameter α) :=
  [ .audioParameterInt "Delay Left" "Delay Left" 5 40 25,
    .audioParameterInt "Delay Right" "Delay Right" 5 40 15,
    .audioParameterFloat "Depth" "Depth" 0 1 (1 / 100) 1 (1 / 4),
    .audioParameterFloat "Rate" "Rate" 1 5 (2 / 100) 1 (3 / 2),
    .audioParameterBool "Dual Delay" "Dual Delay" true,
    .audioParameterBool "Chorus" "Chorus" false ]

/-- The id of a parameter. -/
def RangedAudioParameter.paramID : RangedAudioParameter α → String
  | .audioParameterInt parameterID _ _ _ _ => parameterID
  | .audioParameterFloat parameterID _ _ _ _ _ _ => parameterID
  | .audioParameterBool parameterID _ _ => parameterID

/-- The kind of a parameter. -/
def RangedAudioParameter.kind : RangedAudioParameter α → ParameterKind
  | .audioParameterInt _ _ _ _ _ => .intParameter
  | .audioParameterFloat _ _ _ _ _ _ _ => .floatParameter
  | .audioParameterBool _ _ _ => .boolParameter

/-- The lower end of a parameter's range of raw values (0 for a bool). -/
def RangedAudioParameter.rangeStart : RangedAudioParameter α → α
  | .audioParameterInt _ _ minValue _ _ => (minValue : α)
  | .audioParameterFloat _ _ rangeStart _ _ _ _ => rangeStart
  | .audioParameterBool _ _ _ => 0

/-- The upper end of a parameter's range of raw values (1 for a bool). -/
def RangedAudioParameter.rangeEnd : RangedAudioParameter α → α
  | .audioParameterInt _ _ _ maxValue _ => (maxValue : α)
  | .audioParameterFloat _ _ _ rangeEnd _ _ _ => rangeEnd
  | .audioParameterBool _ _ _ => 1

/-- The raw default value of a parameter (1 or 0 for a bool that defaults to on or off). -/
def RangedAudioParameter.defaultRaw : RangedAudioParameter α → α
  | .audioParameterInt _ _ _ _ defaultValue => (defaultValue : α)
  | .audioParameterFloat _ _ _ _ _ _ defaultValue => defaultValue
  | .audioParameterBool _ _ defaultValue => boolRaw defaultValue

/-- The delay-time target of a channel for the block (`newDelayTimeLeft` for channel 0,
`newDelayTimeRight` for channel 1). -/
def channelTarget (chainsettings : ChainSettings α) (left : Bool) : α :=
  if left then newDelayTimeLeft chainsettings else newDelayTimeRight chainsettings

/-- The smoothed delay-time parameter of a channel. -/
def channelSmoothed (left : Bool) (s : ChorusAudioProcessor α) : SmoothedValue α :=
  if left then s.smoothedDelayTimeLeft else s.smoothedDelayTimeRight

/-- The values the two `getNextValue()` calls of line 191 (channel 0) or 205 (channel 1)
return, in call order, after the target update of the line before. -/
def delayTimeNextValues (chainsettings : ChainSettings α) (left : Bool)
    (s : ChorusAudioProcessor α) : α × α :=
  let v0 := (channelSmoothed left s).setTargetValue (channelTarget chainsettings left)
  (v0.getNextValue.1, v0.getNextValue.2.getNextValue.1)

end Layout

/-! ## Float special values -/

/-- A C++ `float` as the arithmetic of the code treats it: a finite value, an infinity or
NaN.  Arithmetic on finite values is exact (rounding, overflow and the sign of zero are
left out); the special values follow IEEE 754. -/
inductive IEEEFloat (α : Type) where
  | finite (value : α)
  | posInf
  | negInf
  | nan
  deriving DecidableEq

section Special

variable {α : Type} [LinearOrderedField α]

/-- Float multiplication: NaN is absorbing, zero times an infinity is NaN, and a
non-zero value times an infinity is the infinity with the product's sign. -/
def IEEEFloat.mul : IEEEFloat α → IEEEFloat α → IEEEFloat α
  | .nan, _ => .nan
  | _, .nan => .nan
  | .finite a, .finite b => .finite (a * b)
  | .finite a, .posInf => if a = 0 then .nan else if 0 < a then .posInf else .negInf
  | .finite a, .negInf => if a = 0 then .nan else if 0 < a then .negInf else .posInf
  | .posInf, .finite b => if b = 0 then .nan else if 0 < b then .posInf else .negInf
  | .negInf, .finite b => if b = 0 then .nan else if 0 < b then .negInf else .posInf
  | .posInf, .posInf => .posInf
  | .posInf, .negInf => .negInf
  | .negInf, .posInf => .negInf
  | .negInf, .negInf => .posInf

/-- Float addition: NaN is absorbing, opposite infinities add to NaN, and an infinity
absorbs every finite value. -/
def IEEEFloat.add : IEEEFloat α → IEEEFloat α → IEEEFloat α
  | .nan, _ => .nan
  | _, .nan => .nan
  | .finite a, .finite b => .finite (a + b)
  | .finite _, .posInf => .posInf
  | .finite _, .negInf => .negInf
  | .posInf, .finite _ => .posInf
  | .negInf, .finite _ => .negInf
  | .posInf, .posInf => .posInf
  | .posInf, .negInf => .nan
  | .negInf, .posInf => .nan
  | .negInf, .negInf => .negInf

/-- The argument of `writeBuffer` in `processBlock` (PluginProcessor.cpp 197, 211) as
the float expression it is: `inData[sample] + 0 * delayedSample`, the literal `0`
converted to the float zero. -/
def writtenSampleIEEE (input delayedSample : IEEEFloat α) : IEEEFloat α :=
  IEEEFloat.add input (IEEEFloat.mul (.finite 0) delayedSample)

end Special

/-! ## Theorems -/

section FieldLemmas

variable {α : Type} [LinearOrderedField α]

theorem dryWet_eq : (dryWet : α) = 1 := rfl

theorem wetScale_eq : (wetScale : α) = 1 / 2 := by
  simp [wetScale, dryWet]

theorem setTargetValue_target (v : SmoothedValue α) (t : α) :
    (v.setTargetValue t).target = t := by
  unfold SmoothedValue.setTargetValue
  split_ifs with h1 h2
  · exact h1.symm
  · rfl
  · rfl

theorem getNextValue_target (v : SmoothedValue α) :
    v.getNextValue.2.target = v.target := by
  unfold SmoothedValue.getNextValue
  split_ifs <;> rfl

theorem followDelayTime_chorus (cs : ChainSettings α) (left : Bool)
    (s : ChorusAudioProcessor α) :
    (followDelayTime cs left s).chorusPhase = s.chorusPhase ∧
    (followDelayTime cs left s).chorusModulation = s.chorusModulation := by
  cases left <;> simp [followDelayTime]

/-- The wrapping loop ends: when `p < (n + 1) * twoPi`, any fuel above `n` returns `p`
less a whole number `k ≤ n` of subtractions of `twoPi`, and the result is below
`twoPi` and non-negative when `p` is. -/
theorem wrapPhase_terminates (twoPi : α) :
    ∀ (n : Nat) (p : α), p < ((n : α) + 1) * twoPi → ∀ fuel : Nat, n + 1 ≤ fuel →
      ∃ k : Nat, k ≤ n ∧ wrapPhase twoPi fuel p = some (p - (k : α) * twoPi) ∧
        p - (k : α) * twoPi < twoPi ∧ (0 ≤ p → 0 ≤ p - (k : α) * twoPi) := by
  intro n
  induction n with
  | zero =>
    intro p hp fuel hf
    obtain ⟨f, rfl⟩ : ∃ f, fuel = f + 1 := ⟨fuel - 1, by omega⟩
    have hp1 : p < twoPi := by simpa using hp
    refine ⟨0, le_refl _, ?_, by simpa using hp1, by intro h; simpa using h⟩
    simp [wrapPhase, not_le.mpr hp1]
  | succ n ih =>
    intro p hp fuel hf
    obtain ⟨f, rfl⟩ : ∃ f, fuel = f + 1 := ⟨fuel - 1, by omega⟩
    by_cases hge : p ≥ twoPi
    · have hp1 : p - twoPi < ((n : α) + 1) * twoPi := by
        push_cast at hp
        linarith
      obtain ⟨k, hk, hw, hlt, hnn⟩ := ih (p - twoPi) hp1 f (by omega)
      refine ⟨k + 1, by omega, ?_, ?_, ?_⟩
      · simp only [wrapPhase, if_pos hge, hw]
        congr 1
        push_cast
        ring
      · push_cast
        linarith
      · intro _
        have := hnn (by linarith)
        push_cast
        linarith
    · have hp1 : p < twoPi := not_le.mp hge
      refine ⟨0, Nat.zero_le _, ?_, by simpa using hp1, by intro h; simpa using h⟩
      simp [wrapPhase, hge]

/-- In an Archimedean field the wrapping loop ends from every phase. -/
theorem wrapPhase_total [Archimedean α] (twoPi : α) (h2 : 0 < twoPi) (p : α) :
    ∃ fuel0 : Nat, ∀ fuel : Nat, fuel0 ≤ fuel →
      ∃ k : Nat, wrapPhase twoPi fuel p = some (p - (k : α) * twoPi) ∧
        p - (k : α) * twoPi < twoPi ∧ (0 ≤ p → 0 ≤ p - (k : α) * twoPi) := by
  obtain ⟨n, hn⟩ := Archimedean.arch p h2
  have hp : p < ((n : α) + 1) * twoPi := by
    have : n • twoPi = (n : α) * twoPi := nsmul_eq_mul n twoPi
    rw [this] at hn
    linarith
  refine ⟨n + 1, fun fuel hf => ?_⟩
  obtain ⟨k, _, hw, hlt, hnn⟩ := wrapPhase_terminates twoPi n p hp fuel hf
  exact ⟨k, hw, hlt, hnn⟩

/-- Whenever `applyChorus` returns, its modulation value and phase are those of the
source's assignments, and the phase does not depend on the channel flag. -/
theorem applyChorus_some (m : MathLib α) (fuel sample : Nat) (left : Bool)
    (s s1 : ChorusAudioProcessor α) (h : applyChorus m fuel sample left s = some s1) :
    s1.chorusModulation = s.chorusDepth *
        m.sin (2 * m.pi * s.chorusRate * (sample : α) / s.currentSampleRate + s.chorusPhase) ∧
      wrapPhase (2 * m.pi) fuel
        (s.chorusPhase + 2 * m.pi * s.chorusRate / s.currentSampleRate) = some s1.chorusPhase ∧
      s1.chorusDepth = s.chorusDepth ∧ s1.chorusRate = s.chorusRate ∧
      s1.currentSampleRate = s.currentSampleRate := by
  unfold applyChorus at h
  cases left <;> simp only [Bool.false_eq_true, if_true, if_false, Option.map_eq_some'] at h <;>
    obtain ⟨p, hp, rfl⟩ := h <;> exact ⟨rfl, hp, rfl, rfl, rfl⟩

/-- The fields of `settledState` that the evaluations below read. -/
theorem settledState_fields (m : MathLib α) :
    (settledState m).currentSampleRate = 48000 ∧
    (settledState m).delayTimeLeft = 25 ∧ (settledState m).delayTimeRight = 25 ∧
    (settledState m).chorusDepth = 1 / 4 ∧ (settledState m).chorusRate = 3 / 2 ∧
    (settledState m).chorusPhase = 0 ∧ (settledState m).chorusModulation = 0 ∧
    (settledState m).smoothedDelayTimeLeft.target = 25 ∧
    (settledState m).smoothedDelayTimeLeft.countdown = 0 ∧
    (settledState m).smoothedDelayTimeRight.target = 25 ∧
    (settledState m).smoothedDelayTimeRight.countdown = 0 :=
  ⟨rfl, rfl, rfl, rfl, rfl, rfl, rfl, rfl, rfl, rfl, rfl⟩

theorem getNextValue_rest (v : SmoothedValue α) (h : v.countdown ≤ 0) :
    v.getNextValue = (v.target, v) := by
  unfold SmoothedValue.getNextValue
  rw [if_pos (not_lt.mpr h)]

theorem setTargetValue_same (v : SmoothedValue α) (t : α) (h : v.target = t) :
    v.setTargetValue t = v := by
  unfold SmoothedValue.setTargetValue
  rw [if_pos h.symm]

/-- With the left smoothed delay time at rest on the block's target, the follower lines
only move `delayTimeLeft`. -/
theorem followDelayTime_rest_left (cs : ChainSettings α) (s : ChorusAudioProcessor α)
    (ht : s.smoothedDelayTimeLeft.target = newDelayTimeLeft cs)
    (hc : s.smoothedDelayTimeLeft.countdown ≤ 0) :
    followDelayTime cs true s =
      { s with delayTimeLeft :=
          newDelayTimeLeft cs + (newDelayTimeLeft cs - s.delayTimeLeft) * s.coeff } := by
  simp only [followDelayTime, if_true, setTargetValue_same _ _ ht, getNextValue_rest _ hc, ht]

/-- With the right smoothed delay time at rest on the block's target, the follower lines
only move `delayTimeRight`. -/
theorem followDelayTime_rest_right (cs : ChainSettings α) (s : ChorusAudioProcessor α)
    (ht : s.smoothedDelayTimeRight.target = newDelayTimeRight cs)
    (hc : s.smoothedDelayTimeRight.countdown ≤ 0) :
    followDelayTime cs false s =
      { s with delayTimeRight :=
          newDelayTimeRight cs + (newDelayTimeRight cs - s.delayTimeRight) * s.coeff } := by
  simp only [followDelayTime, Bool.false_eq_true, if_false, setTargetValue_same _ _ ht,
    getNextValue_rest _ hc, ht]

/-- When the advanced phase is already below `2 * pi`, `applyChorus` returns with any
positive fuel and the new phase is the advanced phase. -/
theorem applyChorus_no_wrap (m : MathLib α) (fuel sample : Nat) (left : Bool)
    (s : ChorusAudioProcessor α)
    (h : s.chorusPhase + 2 * m.pi * s.chorusRate / s.currentSampleRate < 2 * m.pi) :
    ∃ s1 : ChorusAudioProcessor α, applyChorus m (fuel + 1) sample left s = some s1 ∧
      s1.chorusPhase = s.chorusPhase + 2 * m.pi * s.chorusRate / s.currentSampleRate := by
  have hw : wrapPhase (2 * m.pi) (fuel + 1)
      (s.chorusPhase + 2 * m.pi * s.chorusRate / s.currentSampleRate) =
      some (s.chorusPhase + 2 * m.pi * s.chorusRate / s.currentSampleRate) := by
    simp [wrapPhase, not_le.mpr h]
  have hsome : (applyChorus m (fuel + 1) sample left s).isSome = true := by
    unfold applyChorus
    cases left <;> simp [hw]
  obtain ⟨s1, hs1⟩ := Option.isSome_iff_exists.mp hsome
  have hp := (applyChorus_some m (fuel + 1) sample left s s1 hs1).2.1
  rw [hw] at hp
  exact ⟨s1, hs1, (Option.some.inj hp).symm⟩

/-! ### Parameter snapshot and targets -/

/-- C4 (as stated, refuted): in the store holding the defaults the "Dual Delay" bool is
on (raw value 1) and the "Chorus" bool is off (raw value 0), yet the snapshot has
`dualDelay = false` and `chorus = true`. -/
theorem getChainSettings_flags_inverted :
    (defaultParameters "Dual Delay" : ℚ) = 1 ∧
    (getChainSettings (defaultParameters : ParameterStore ℚ)).dualDelay = false ∧
    (defaultParameters "Chorus" : ℚ) = 0 ∧
    (getChainSettings (defaultParameters : ParameterStore ℚ)).chorus = true ∧
    ¬ ((getChainSettings (defaultParameters : ParameterStore ℚ)).dualDelay = true ↔
        (defaultParameters "Dual Delay" : ℚ) = 1) := by
  have h1 : (defaultParameters "Dual Delay" : ℚ) = 1 := by
    simp [defaultParameters, boolRaw]
  have h2 : (defaultParameters "Chorus" : ℚ) = 0 := by
    simp [defaultParameters, boolRaw]
  have h3 : (getChainSettings (defaultParameters : ParameterStore ℚ)).dualDelay = false := by
    simp only [getChainSettings, h1]
    norm_num
  have h4 : (getChainSettings (defaultParameters : ParameterStore ℚ)).chorus = true := by
    simp only [getChainSettings, h2]
    norm_num
  refine ⟨h1, h3, h2, h4, ?_⟩
  rw [h3]
  simp [h1]

/-- C4 (amended): the snapshot of `getChainSettings` carries the stored values of
"Delay Left", "Delay Right", "Depth" and "Rate"; `dualDelay` is true exactly when the raw
value of "Dual Delay" is below 0.5 and `chorus` is true exactly when the raw value of
"Chorus" is below 0.5, so a bool parameter that is on (raw 1) gives the flag false and
one that is off (raw 0) gives the flag true. -/
theorem getChainSettings_snapshot (apvts : ParameterStore α) :
    (getChainSettings apvts).delayTimeLeft = apvts "Delay Left" ∧
    (getChainSettings apvts).delayTimeRight = apvts "Delay Right" ∧
    (getChainSettings apvts).depth = apvts "Depth" ∧
    (getChainSettings apvts).rate = apvts "Rate" ∧
    ((getChainSettings apvts).dualDelay = true ↔ apvts "Dual Delay" < 1 / 2) ∧
    ((getChainSettings apvts).chorus = true ↔ apvts "Chorus" < 1 / 2) ∧
    (∀ b : Bool,
      (getChainSettings (Function.update apvts "Dual Delay" (boolRaw b))).dualDelay = !b) ∧
    (∀ b : Bool,
      (getChainSettings (Function.update apvts "Chorus" (boolRaw b))).chorus = !b) := by
  refine ⟨rfl, rfl, rfl, rfl, by simp [getChainSettings], by simp [getChainSettings], ?_, ?_⟩
  · intro b
    cases b
    · simp [getChainSettings, boolRaw]
    · have : ¬ ((1 : α) < 2⁻¹) := by norm_num
      simp [getChainSettings, boolRaw, this]
  · intro b
    cases b
    · simp [getChainSettings, boolRaw]
    · have : ¬ ((1 : α) < 2⁻¹) := by norm_num
      simp [getChainSettings, boolRaw, this]

/-- C5: the delay-time target `processBlock` hands to the left channel's smoothed
parameter is the snapshot's `delayTimeLeft`; the one it hands to the right channel's is
the snapshot's `delayTimeRight` when `dualDelay` is true and its `delayTimeLeft` when it
is false; after the follower lines the smoothed parameters hold these targets. -/
theorem delay_time_targets (cs : ChainSettings α) (s : ChorusAudioProcessor α) :
    newDelayTimeLeft cs = cs.delayTimeLeft ∧
    newDelayTimeRight cs = (if cs.dualDelay = true then cs.delayTimeRight
      else cs.delayTimeLeft) ∧
    (followDelayTime cs true s).smoothedDelayTimeLeft.target = cs.delayTimeLeft ∧
    (followDelayTime cs false s).smoothedDelayTimeRight.target =
      (if cs.dualDelay = true then cs.delayTimeRight else cs.delayTimeLeft) := by
  refine ⟨rfl, rfl, ?_, ?_⟩
  · simp [followDelayTime, getNextValue_target, setTargetValue_target, newDelayTimeLeft]
  · simp [followDelayTime, getNextValue_target, setTargetValue_target, newDelayTimeRight]

/-! ### Chorus -/

/-- C6: in a sample step of either channel the chorus is applied exactly when the
snapshot's chorus flag is true and the channel's delay time after the follower update is
non-zero: then the delay stage is the `applyChorus` call on the follower's state;
otherwise the delay stage returns the follower's state itself, so the delay time used to
read the buffer is the follower output and the chorus phase and modulation are those
from before the step. -/
theorem chorus_guard (m : MathLib α) (fuel : Nat) (cs : ChainSettings α) (left : Bool)
    (sample : Nat) (s : ChorusAudioProcessor α) :
    (cs.chorus = true ∧ channelDelayTime left (followDelayTime cs left s) ≠ 0 →
      delayStage m fuel cs left sample s =
        applyChorus m fuel sample left (followDelayTime cs left s)) ∧
    (cs.chorus = false ∨ channelDelayTime left (followDelayTime cs left s) = 0 →
      delayStage m fuel cs left sample s = some (followDelayTime cs left s) ∧
      (followDelayTime cs left s).chorusPhase = s.chorusPhase ∧
      (followDelayTime cs left s).chorusModulation = s.chorusModulation) := by
  constructor
  · intro h
    simp only [delayStage, if_pos h]
  · intro h
    have hn : ¬ (cs.chorus = true ∧ channelDelayTime left (followDelayTime cs left s) ≠ 0) := by
      rintro ⟨h1, h2⟩
      rcases h with h | h
      · rw [h] at h1
        exact Bool.false_ne_true h1
      · exact h2 h
    refine ⟨?_, (followDelayTime_chorus cs left s).1, (followDelayTime_chorus cs left s).2⟩
    simp only [delayStage, if_neg hn]

/-- C7: with pi positive, `applyChorus` returns once the fuel covers the wrapping loop,
and whenever it returns the modulation is
`depth * sin (2 * pi * rate * sample / sampleRate + phase)` with the depth, rate and
phase of the state before the call. -/
theorem applyChorus_modulation [Archimedean α] (m : MathLib α) (sample : Nat) (left : Bool)
    (s : ChorusAudioProcessor α) (hpi : 0 < m.pi) :
    (∀ (fuel : Nat) (s1 : ChorusAudioProcessor α),
      applyChorus m fuel sample left s = some s1 →
      s1.chorusModulation = s.chorusDepth *
        m.sin (2 * m.pi * s.chorusRate * (sample : α) / s.currentSampleRate
          + s.chorusPhase)) ∧
    ∃ fuel0 : Nat, ∀ fuel : Nat, fuel0 ≤ fuel →
      ∃ s1 : ChorusAudioProcessor α, applyChorus m fuel sample left s = some s1 ∧
        s1.chorusModulation = s.chorusDepth *
          m.sin (2 * m.pi * s.chorusRate * (sample : α) / s.currentSampleRate
            + s.chorusPhase) := by
  refine ⟨fun fuel s1 h => (applyChorus_some m fuel sample left s s1 h).1, ?_⟩
  obtain ⟨fuel0, hf⟩ := wrapPhase_total (2 * m.pi) (by linarith)
    (s.chorusPhase + 2 * m.pi * s.chorusRate / s.currentSampleRate)
  refine ⟨fuel0, fun fuel hfuel => ?_⟩
  obtain ⟨k, hw, _, _⟩ := hf fuel hfuel
  have hsome : (applyChorus m fuel sample left s).isSome = true := by
    unfold applyChorus
    cases left <;> simp [hw]
  obtain ⟨s1, hs1⟩ := Option.isSome_iff_exists.mp hsome
  exact ⟨s1, hs1, (applyChorus_some m fuel sample left s s1 hs1).1⟩

/-- C8: chorus phase invariant: with pi positive, phase and rate non-negative and a
positive sample rate, `applyChorus` returns once the fuel covers the wrapping loop (the
loop ends), and the new phase lies in `[0, 2 * pi)` and is the old phase plus
`2 * pi * rate / sampleRate` less a whole number of subtractions of `2 * pi`. -/
theorem applyChorus_phase_invariant [Archimedean α] (m : MathLib α) (sample : Nat)
    (left : Bool) (s : ChorusAudioProcessor α) (hpi : 0 < m.pi)
    (hphase : 0 ≤ s.chorusPhase) (hrate : 0 ≤ s.chorusRate)
    (hsr : 0 < s.currentSampleRate) :
    ∃ fuel0 : Nat, ∀ fuel : Nat, fuel0 ≤ fuel →
      ∃ (s1 : ChorusAudioProcessor α) (k : Nat),
        applyChorus m fuel sample left s = some s1 ∧
        0 ≤ s1.chorusPhase ∧ s1.chorusPhase < 2 * m.pi ∧
        s1.chorusPhase = s.chorusPhase + 2 * m.pi * s.chorusRate / s.currentSampleRate
          - (k : α) * (2 * m.pi) := by
  have hinc : 0 ≤ 2 * m.pi * s.chorusRate / s.currentSampleRate :=
    div_nonneg (mul_nonneg (by linarith) hrate) hsr.le
  obtain ⟨fuel0, hf⟩ := wrapPhase_total (2 * m.pi) (by linarith)
    (s.chorusPhase + 2 * m.pi * s.chorusRate / s.currentSampleRate)
  refine ⟨fuel0, fun fuel hfuel => ?_⟩
  obtain ⟨k, hw, hlt, hnn⟩ := hf fuel hfuel
  have hsome : (applyChorus m fuel sample left s).isSome = true := by
    unfold applyChorus
    cases left <;> simp [hw]
  obtain ⟨s1, hs1⟩ := Option.isSome_iff_exists.mp hsome
  have hp := (applyChorus_some m fuel sample left s s1 hs1).2.1
  rw [hw] at hp
  have hp1 : s1.chorusPhase = s.chorusPhase + 2 * m.pi * s.chorusRate / s.currentSampleRate
      - (k : α) * (2 * m.pi) := (Option.some.inj hp).symm
  refine ⟨s1, k, hs1, ?_, ?_, hp1⟩
  · rw [hp1]
    exact hnn (by linarith)
  · rw [hp1]
    exact hlt

/-- C10 (amended): the two channels share one chorus phase accumulator: a chorus step
for either channel replaces the single `chorusPhase`, which the next chorus step of
either channel reads, by `phase + 2 * pi * rate / sampleRate` wrapped by the loop, the
same result for the left and the right channel; the step changes only the delay time
of its own channel. -/
theorem chorus_phase_shared (m : MathLib α) (fuel sample : Nat)
    (s : ChorusAudioProcessor α) :
    (applyChorus m fuel sample true s).map (fun s1 => s1.chorusPhase) =
      wrapPhase (2 * m.pi) fuel
        (s.chorusPhase + 2 * m.pi * s.chorusRate / s.currentSampleRate) ∧
    (applyChorus m fuel sample false s).map (fun s1 => s1.chorusPhase) =
      wrapPhase (2 * m.pi) fuel
        (s.chorusPhase + 2 * m.pi * s.chorusRate / s.currentSampleRate) ∧
    (applyChorus m fuel sample true s).map (fun s1 => s1.delayTimeRight) =
      (applyChorus m fuel sample true s).map (fun _ => s.delayTimeRight) ∧
    (applyChorus m fuel sample false s).map (fun s1 => s1.delayTimeLeft) =
      (applyChorus m fuel sample false s).map (fun _ => s.delayTimeLeft) := by
  refine ⟨?_, ?_, ?_, ?_⟩ <;>
    simp only [applyChorus, if_true, Bool.false_eq_true, if_false, Option.map_map] <;>
    generalize wrapPhase (2 * m.pi) fuel _ = w <;>
    cases w <;> rfl

/-- Witness for C6 on the settled 48 kHz state over the rationals: with the "Chorus" bool
on (flag false) the delay stage returns the follower's state, with the default
parameters (flag true, delay time 25) it is the `applyChorus` call. -/
theorem chorus_guard_witness :
    delayStage ratMath 1
        (getChainSettings (Function.update defaultParameters "Chorus" (boolRaw true)))
        true 0 (settledState ratMath) =
      some (followDelayTime
        (getChainSettings (Function.update defaultParameters "Chorus" (boolRaw true)))
        true (settledState ratMath)) ∧
    delayStage ratMath 1 (getChainSettings defaultParameters) true 0 (settledState ratMath) =
      applyChorus ratMath 1 0 true
        (followDelayTime (getChainSettings defaultParameters) true (settledState ratMath)) := by
  constructor
  · refine ((chorus_guard ratMath 1 _ true 0 (settledState ratMath)).2 (Or.inl ?_)).1
    have : ¬ ((1 : ℚ) < 2⁻¹) := by norm_num
    simp [getChainSettings, boolRaw, this]
  · refine (chorus_guard ratMath 1 _ true 0 (settledState ratMath)).1 ⟨?_, ?_⟩
    · simp [getChainSettings, defaultParameters, boolRaw]
    · have ht : (settledState ratMath).smoothedDelayTimeLeft.target =
          newDelayTimeLeft (getChainSettings (defaultParameters : ParameterStore ℚ)) := by
        simp [getChainSettings, defaultParameters, newDelayTimeLeft, settledState_fields]
      rw [followDelayTime_rest_left _ _ ht (by simp [settledState_fields])]
      simp [channelDelayTime, ← ht, settledState_fields]

/-- Witness for C7 on the settled 48 kHz state over the reals with the real sine and pi. -/
theorem applyChorus_modulation_witness :
    (0 : ℝ) < (MathLib.mk Real.sin Real.exp Real.pi).pi ∧
    ∃ fuel0 : Nat, ∀ fuel : Nat, fuel0 ≤ fuel →
      ∃ s1 : ChorusAudioProcessor ℝ,
        applyChorus (MathLib.mk Real.sin Real.exp Real.pi) fuel 7 true
          (settledState (MathLib.mk Real.sin Real.exp Real.pi)) = some s1 ∧
        s1.chorusModulation =
          (settledState (MathLib.mk Real.sin Real.exp Real.pi)).chorusDepth *
            Real.sin (2 * Real.pi *
              (settledState (MathLib.mk Real.sin Real.exp Real.pi)).chorusRate * ((7 : Nat) : ℝ) /
              (settledState (MathLib.mk Real.sin Real.exp Real.pi)).currentSampleRate +
              (settledState (MathLib.mk Real.sin Real.exp Real.pi)).chorusPhase) :=
  ⟨Real.pi_pos,
    (applyChorus_modulation (MathLib.mk Real.sin Real.exp Real.pi) 7 true
      (settledState (MathLib.mk Real.sin Real.exp Real.pi)) Real.pi_pos).2⟩

/-- Witness for C8 on the settled 48 kHz state over the reals with the real pi. -/
theorem applyChorus_phase_invariant_witness :
    (0 : ℝ) < (MathLib.mk Real.sin Real.exp Real.pi).pi ∧
    (0 : ℝ) ≤ (settledState (MathLib.mk Real.sin Real.exp Real.pi)).chorusPhase ∧
    (0 : ℝ) ≤ (settledState (MathLib.mk Real.sin Real.exp Real.pi)).chorusRate ∧
    (0 : ℝ) < (settledState (MathLib.mk Real.sin Real.exp Real.pi)).currentSampleRate ∧
    ∃ fuel0 : Nat, ∀ fuel : Nat, fuel0 ≤ fuel →
      ∃ (s1 : ChorusAudioProcessor ℝ) (k : Nat),
        applyChorus (MathLib.mk Real.sin Real.exp Real.pi) fuel 0 true
          (settledState (MathLib.mk Real.sin Real.exp Real.pi)) = some s1 ∧
        0 ≤ s1.chorusPhase ∧ s1.chorusPhase < 2 * Real.pi ∧
        s1.chorusPhase =
          (settledState (MathLib.mk Real.sin Real.exp Real.pi)).chorusPhase +
            2 * Real.pi * (settledState (MathLib.mk Real.sin Real.exp Real.pi)).chorusRate /
              (settledState (MathLib.mk Real.sin Real.exp Real.pi)).currentSampleRate
            - (k : ℝ) * (2 * Real.pi) :=
  ⟨Real.pi_pos, le_refl _, by norm_num [settledState_fields],
    by norm_num [settledState_fields],
    applyChorus_phase_invariant (MathLib.mk Real.sin Real.exp Real.pi) 0 true
      (settledState (MathLib.mk Real.sin Real.exp Real.pi)) Real.pi_pos (le_refl _)
      (by norm_num [settledState_fields]) (by norm_num [settledState_fields])⟩

/-- C10 (as stated, refuted): on the settled 48 kHz state over the reals, a chorus step
for the left channel changes the phase that the right channel's next chorus step reads
(from 0 to `2 * pi * 1.5 / 48000`). -/
theorem chorus_phase_not_per_channel :
    ∃ s1 : ChorusAudioProcessor ℝ,
      applyChorus (MathLib.mk Real.sin Real.exp Real.pi) 1 0 true
        (settledState (MathLib.mk Real.sin Real.exp Real.pi)) = some s1 ∧
      s1.chorusPhase = 2 * Real.pi * (3 / 2) / 48000 ∧
      s1.chorusPhase ≠ (settledState (MathLib.mk Real.sin Real.exp Real.pi)).chorusPhase := by
  have hpi := Real.pi_pos
  have hlt : (settledState (MathLib.mk Real.sin Real.exp Real.pi)).chorusPhase +
      2 * (MathLib.mk Real.sin Real.exp Real.pi).pi *
        (settledState (MathLib.mk Real.sin Real.exp Real.pi)).chorusRate /
        (settledState (MathLib.mk Real.sin Real.exp Real.pi)).currentSampleRate <
      2 * (MathLib.mk Real.sin Real.exp Real.pi).pi := by
    simp only [settledState_fields]
    linarith
  obtain ⟨s1, hs1, hp⟩ := applyChorus_no_wrap _ 0 0 true _ hlt
  simp only [settledState_fields, zero_add] at hp
  refine ⟨s1, hs1, hp, ?_⟩
  rw [hp]
  simp only [settledState_fields]
  positivity

/-! ### The chorus across blocks -/

/-- When the advanced phase is below `2 * pi`, `applyChorus` returns this state. -/
theorem applyChorus_no_wrap_eq (m : MathLib α) (fuel sample : Nat) (left : Bool)
    (s : ChorusAudioProcessor α)
    (h : s.chorusPhase + 2 * m.pi * s.chorusRate / s.currentSampleRate < 2 * m.pi) :
    applyChorus m (fuel + 1) sample left s =
      some (if left then
        { s with
          chorusModulation := s.chorusDepth *
            m.sin (2 * m.pi * s.chorusRate * (sample : α) / s.currentSampleRate + s.chorusPhase)
          delayTimeLeft := s.delayTimeLeft + s.chorusDepth *
              m.sin (2 * m.pi * s.chorusRate * (sample : α) / s.currentSampleRate
                + s.chorusPhase) +
            (s.delayTimeLeft + s.chorusDepth *
              m.sin (2 * m.pi * s.chorusRate * (sample : α) / s.currentSampleRate
                + s.chorusPhase) - s.delayTimeLeft) * s.coeff
          chorusPhase := s.chorusPhase + 2 * m.pi * s.chorusRate / s.currentSampleRate }
      else
        { s with
          chorusModulation := s.chorusDepth *
            m.sin (2 * m.pi * s.chorusRate * (sample : α) / s.currentSampleRate + s.chorusPhase)
          delayTimeRight := s.delayTimeRight + s.chorusDepth *
              m.sin (2 * m.pi * s.chorusRate * (sample : α) / s.currentSampleRate
                + s.chorusPhase) +
            (s.delayTimeRight + s.chorusDepth *
              m.sin (2 * m.pi * s.chorusRate * (sample : α) / s.currentSampleRate
                + s.chorusPhase) - s.delayTimeRight) * s.coeff
          chorusPhase := s.chorusPhase + 2 * m.pi * s.chorusRate / s.currentSampleRate }) := by
  have hw : wrapPhase (2 * m.pi) (fuel + 1)
      (s.chorusPhase + 2 * m.pi * s.chorusRate / s.currentSampleRate) =
      some (s.chorusPhase + 2 * m.pi * s.chorusRate / s.currentSampleRate) := by
    simp [wrapPhase, not_le.mpr h]
  unfold applyChorus
  cases left <;> simp [hw]

/-- The follower output stays within `c ≤ 1/2` of the target, and the chorus blend of a
modulation of size at most 1/4 keeps the delay time within 1 of it. -/
theorem delay_time_bounds (T dt c mod : α) (hdt : |dt - T| ≤ 1) (hc0 : 0 ≤ c)
    (hc1 : c ≤ 1 / 2) (hmod : |mod| ≤ 1 / 4) (hT : 5 ≤ T) :
    T + (T - dt) * c ≠ 0 ∧
    |T + (T - dt) * c + mod + (T + (T - dt) * c + mod - (T + (T - dt) * c)) * c - T| ≤ 1 := by
  obtain ⟨h1, h2⟩ := abs_le.mp hdt
  obtain ⟨h3, h4⟩ := abs_le.mp hmod
  have e1 : (T - dt) * c ≤ 1 / 2 := by nlinarith
  have e2 : -(1 / 2) ≤ (T - dt) * c := by nlinarith
  have e3 : mod * c ≤ 1 / 8 := by nlinarith
  have e4 : -(1 / 8) ≤ mod * c := by nlinarith
  constructor
  · intro h0
    linarith
  · rw [abs_le]
    constructor <;> nlinarith

/-- With the engine at rest the per-sample phase increment is non-negative. -/
theorem chorusAtRest_inc_nonneg (m : MathLib α) (cs : ChainSettings α)
    (s : ChorusAudioProcessor α) (hJ : chorusAtRest m cs s) :
    0 ≤ 2 * m.pi * cs.rate / s.currentSampleRate := by
  obtain ⟨⟨-, -, hrate, -, -, hpi, -⟩, -, -, -, ⟨-, -, hsr, -⟩⟩ := hJ
  exact div_nonneg (mul_nonneg (by linarith) hrate) hsr.le

/-- With equal input and output channel counts no channel is cleared. -/
theorem clearExtraChannels_same (n : Nat) :
    ∀ (buffer : List (List α)) (i : Nat), clearExtraChannels n n i buffer = buffer := by
  intro buffer
  induction buffer with
  | nil => intro i; rfl
  | cons data rest ih =>
    intro i
    have : ¬ (n ≤ i ∧ i < n) := by omega
    simp only [clearExtraChannels, if_neg this, ih]

/-- With depth and rate at rest on the block's values, lines 175-178 change nothing. -/
theorem updateChorusParams_rest (m : MathLib α) (cs : ChainSettings α)
    (s : ChorusAudioProcessor α) (hJ : chorusAtRest m cs s) :
    updateChorusParams cs s = s := by
  obtain ⟨-, ⟨hd1, hd2, hd3, hr1, hr2, hr3⟩, -⟩ := hJ
  simp only [updateChorusParams, setTargetValue_same _ _ hd1, setTargetValue_same _ _ hr1,
    getNextValue_rest _ hd2, getNextValue_rest _ hr2, hd1, hr1]
  rw [← hd3, ← hr3]
  simp

/-- The snapshot of the default parameters: with the defaults the "Dual Delay" bool is on
and the "Chorus" bool is off, so `dualDelay` is false and `chorus` is true. -/
theorem getChainSettings_defaults :
    getChainSettings (defaultParameters : ParameterStore α) =
      { delayTimeLeft := 25, delayTimeRight := 15, depth := 1 / 4, rate := 3 / 2,
        dualDelay := false, chorus := true } := by
  have h1 : ¬ ((1 : α) < 2⁻¹) := by norm_num
  simp [getChainSettings, defaultParameters, boolRaw, h1]

/-! ### Parameter layout -/

/-- C12: the layout built by `createParameters` holds exactly six parameters, in this
order: "Delay Left" (int, range [5,40], default 25), "Delay Right" (int, range [5,40],
default 15), "Depth" (float, range [0,1], default 0.25), "Rate" (float, range [1,5],
default 1.5), "Dual Delay" (bool, default on) and "Chorus" (bool, default off); the ids
are distinct and every default lies inside its range. -/
theorem createParameters_layout :
    (createParameters : List (RangedAudioParameter α)).length = 6 ∧
    (createParameters : List (RangedAudioParameter α)).map
        (fun p => (p.paramID, p.kind, p.rangeStart, p.rangeEnd, p.defaultRaw)) =
      [("Delay Left", .intParameter, 5, 40, 25),
       ("Delay Right", .intParameter, 5, 40, 15),
       ("Depth", .floatParameter, 0, 1, 1 / 4),
       ("Rate", .floatParameter, 1, 5, 3 / 2),
       ("Dual Delay", .boolParameter, 0, 1, boolRaw true),
       ("Chorus", .boolParameter, 0, 1, boolRaw false)] ∧
    ((createParameters : List (RangedAudioParameter α)).map (fun p => p.paramID)).Nodup ∧
    (∀ p ∈ (createParameters : List (RangedAudioParameter α)),
      p.rangeStart ≤ p.defaultRaw ∧ p.defaultRaw ≤ p.rangeEnd) ∧
    (∀ p ∈ (createParameters : List (RangedAudioParameter α)),
      defaultParameters p.paramID = p.defaultRaw) := by
  refine ⟨rfl, ?_, ?_, ?_, ?_⟩
  · simp [createParameters, RangedAudioParameter.paramID, RangedAudioParameter.kind,
      RangedAudioParameter.rangeStart, RangedAudioParameter.rangeEnd,
      RangedAudioParameter.defaultRaw]
  · simp [createParameters, RangedAudioParameter.paramID]
  · intro p hp
    simp only [createParameters, List.mem_cons, List.mem_singleton, List.not_mem_nil,
      or_false] at hp
    rcases hp with rfl | rfl | rfl | rfl | rfl | rfl <;>
      simp only [RangedAudioParameter.rangeStart, RangedAudioParameter.rangeEnd,
        RangedAudioParameter.defaultRaw, boolRaw] <;> norm_num
  · intro p hp
    simp only [createParameters, List.mem_cons, List.mem_singleton, List.not_mem_nil,
      or_false] at hp
    rcases hp with rfl | rfl | rfl | rfl | rfl | rfl <;>
      simp [RangedAudioParameter.paramID, RangedAudioParameter.defaultRaw, defaultParameters]

/-! ### The chorus blend -/

/-- Whenever `applyChorus` returns, the delay time of its channel is the one-pole blend
of the modulated delay time, the other channel's delay time, the coefficient and the
sample rate are unchanged. -/
theorem applyChorus_delayTime (m : MathLib α) (fuel sample : Nat) (left : Bool)
    (s s1 : ChorusAudioProcessor α) (h : applyChorus m fuel sample left s = some s1) :
    channelDelayTime left s1 =
      (channelDelayTime left s + s1.chorusModulation) +
        ((channelDelayTime left s + s1.chorusModulation) - channelDelayTime left s) * s.coeff ∧
    channelDelayTime (!left) s1 = channelDelayTime (!left) s ∧
    s1.coeff = s.coeff ∧ s1.coeff_chrs = s.coeff_chrs := by
  unfold applyChorus at h
  cases left <;> simp only [Bool.false_eq_true, if_true, if_false, Option.map_eq_some'] at h <;>
    obtain ⟨p, -, rfl⟩ := h <;> simp [channelDelayTime]

/-- With pi positive, `applyChorus` returns once the fuel covers the wrapping loop. -/
theorem applyChorus_returns [Archimedean α] (m : MathLib α) (sample : Nat) (left : Bool)
    (s : ChorusAudioProcessor α) (hpi : 0 < m.pi) :
    ∃ fuel0 : Nat, ∀ fuel : Nat, fuel0 ≤ fuel →
      (applyChorus m fuel sample left s).isSome = true := by
  obtain ⟨fuel0, hf⟩ := wrapPhase_total (2 * m.pi) (by linarith)
    (s.chorusPhase + 2 * m.pi * s.chorusRate / s.currentSampleRate)
  refine ⟨fuel0, fun fuel hfuel => ?_⟩
  obtain ⟨k, hw, -, -⟩ := hf fuel hfuel
  unfold applyChorus
  cases left <;> simp [hw]

/-- C14: the chorus step of a channel with delay time `d`, modulation `mod` and follower
coefficient `coeff` (the delay-time coefficient, not `coeff_chrs`) replaces the
channel's delay time by `n + (n - d) * coeff` for `n = d + mod`, that is by
`d + (1 + coeff) * mod`, and leaves the other channel's delay time unchanged; with pi
positive the step returns once the fuel covers the wrapping loop. -/
theorem chorus_blend [Archimedean α] (m : MathLib α) (sample : Nat) (left : Bool)
    (s : ChorusAudioProcessor α) (hpi : 0 < m.pi) :
    (∀ (fuel : Nat) (s1 : ChorusAudioProcessor α),
      applyChorus m fuel sample left s = some s1 →
      channelDelayTime left s1 =
        (channelDelayTime left s + s1.chorusModulation) +
          ((channelDelayTime left s + s1.chorusModulation) - channelDelayTime left s)
            * s.coeff ∧
      channelDelayTime left s1 =
        channelDelayTime left s + (1 + s.coeff) * s1.chorusModulation ∧
      channelDelayTime (!left) s1 = channelDelayTime (!left) s) ∧
    ∃ fuel0 : Nat, ∀ fuel : Nat, fuel0 ≤ fuel →
      (applyChorus m fuel sample left s).isSome = true := by
  refine ⟨fun fuel s1 h => ?_, applyChorus_returns m sample left s hpi⟩
  obtain ⟨h1, h2, -⟩ := applyChorus_delayTime m fuel sample left s s1 h
  refine ⟨h1, ?_, h2⟩
  rw [h1]
  ring

/-- Witness for C14 on the settled 48 kHz state over the reals with the real pi. -/
theorem chorus_blend_witness :
    (0 : ℝ) < (MathLib.mk Real.sin Real.exp Real.pi).pi ∧
    ∃ fuel0 : Nat, ∀ fuel : Nat, fuel0 ≤ fuel →
      (applyChorus (MathLib.mk Real.sin Real.exp Real.pi) fuel 3 false
        (settledState (MathLib.mk Real.sin Real.exp Real.pi))).isSome = true :=
  ⟨Real.pi_pos,
    (chorus_blend (MathLib.mk Real.sin Real.exp Real.pi) 3 false
      (settledState (MathLib.mk Real.sin Real.exp Real.pi)) Real.pi_pos).2⟩

/-! ### The one-pole follower -/

/-- The follower lines in terms of the channel: the new delay time is the first returned
value plus `coeff` times the second returned value less the old delay time; the
channel's smoothed parameter has taken two `getNextValue` steps after the target update;
everything else the later stages read is unchanged. -/
theorem followDelayTime_channel (cs : ChainSettings α) (left : Bool)
    (s : ChorusAudioProcessor α) :
    channelDelayTime left (followDelayTime cs left s) =
      (delayTimeNextValues cs left s).1 +
        ((delayTimeNextValues cs left s).2 - channelDelayTime left s) * s.coeff ∧
    channelSmoothed left (followDelayTime cs left s) =
      ((channelSmoothed left s).setTargetValue
        (channelTarget cs left)).getNextValue.2.getNextValue.2 ∧
    channelDelayTime (!left) (followDelayTime cs left s) = channelDelayTime (!left) s ∧
    (followDelayTime cs left s).coeff = s.coeff ∧
    (followDelayTime cs left s).currentSampleRate = s.currentSampleRate ∧
    (followDelayTime cs left s).chorusDepth = s.chorusDepth ∧
    (followDelayTime cs left s).chorusRate = s.chorusRate := by
  cases left <;>
    simp [followDelayTime, channelDelayTime, delayTimeNextValues, channelSmoothed,
      channelTarget]

/-- At rest on the block's target both `getNextValue` calls return the target. -/
theorem delayTimeNextValues_rest (cs : ChainSettings α) (left : Bool)
    (s : ChorusAudioProcessor α)
    (ht : (channelSmoothed left s).target = channelTarget cs left)
    (hc : (channelSmoothed left s).countdown ≤ 0) :
    delayTimeNextValues cs left s = (channelTarget cs left, channelTarget cs left) ∧
    ((channelSmoothed left s).setTargetValue
      (channelTarget cs left)).getNextValue.2.getNextValue.2 = channelSmoothed left s := by
  simp only [delayTimeNextValues, setTargetValue_same _ _ ht, getNextValue_rest _ hc, ht,
    and_self]

/-- In a ramp with more than two steps left, the two `getNextValue` calls return the
current value plus one and plus two steps. -/
theorem getNextValue_ramp (v : SmoothedValue α) (h : 2 < v.countdown) :
    v.getNextValue.1 = v.currentValue + v.step ∧
    v.getNextValue.2.getNextValue.1 = v.currentValue + v.step + v.step := by
  have h1 : 0 < v.countdown := by omega
  have h2 : 0 < v.countdown - 1 := by omega
  have h3 : 0 < v.countdown - 1 - 1 := by omega
  have e : v.getNextValue = (v.currentValue + v.step,
      { v with countdown := v.countdown - 1, currentValue := v.currentValue + v.step }) := by
    unfold SmoothedValue.getNextValue
    rw [if_neg (not_not.mpr h1), if_pos h2]
  rw [e]
  refine ⟨rfl, ?_⟩
  unfold SmoothedValue.getNextValue
  simp only [not_lt]
  rw [if_neg (not_le.mpr h2), if_pos h3]

/-- The smoothed left delay time of the settled state once the target moves to 40 ms:
a ramp of 14400 steps of 1/960 ms. -/
theorem settledState_retarget (m : MathLib α) :
    (settledState m).smoothedDelayTimeLeft.setTargetValue 40 =
      { currentValue := 25, target := 40, step := (40 - 25) / ((14400 : Int) : α),
        countdown := 14400, stepsToTarget := 14400 } := by
  have h1 : ¬ ((40 : α) = 25) := by norm_num
  have h2 : ¬ ((14400 : Int) ≤ 0) := by omega
  show (restingAt 25 14400 : SmoothedValue α).setTargetValue 40 = _
  simp only [SmoothedValue.setTargetValue, restingAt, if_neg h1, if_neg h2]

/-- C13 (as stated, refuted): on the settled 48 kHz state with the "Delay Left" parameter
moved to 40 the smoothed parameter ramps, the two calls return 25 + 1/960 and
25 + 2/960, and the new delay time is not `s + (s - current) * coeff` for the second
value `s`. -/
theorem follower_uses_both_values :
    delayTimeNextValues
      (getChainSettings (Function.update defaultParameters "Delay Left" 40)) true
      (settledState ratMath) = (25 + 1 / 960, 25 + 2 / 960) ∧
    channelDelayTime true (followDelayTime
      (getChainSettings (Function.update defaultParameters "Delay Left" 40)) true
      (settledState ratMath)) ≠
      (delayTimeNextValues
        (getChainSettings (Function.update defaultParameters "Delay Left" 40)) true
        (settledState ratMath)).2 +
      ((delayTimeNextValues
        (getChainSettings (Function.update defaultParameters "Delay Left" 40)) true
        (settledState ratMath)).2 - (settledState ratMath).delayTimeLeft) *
        (settledState ratMath).coeff := by
  have ht : channelTarget (getChainSettings
      (Function.update (defaultParameters : ParameterStore ℚ) "Delay Left" 40)) true = 40 := by
    simp [channelTarget, newDelayTimeLeft, getChainSettings]
  have hv : delayTimeNextValues
      (getChainSettings (Function.update defaultParameters "Delay Left" 40)) true
      (settledState ratMath) = (25 + 1 / 960, 25 + 2 / 960) := by
    have hr := getNextValue_ramp ((settledState ratMath).smoothedDelayTimeLeft.setTargetValue 40)
      (by rw [settledState_retarget]; show (2 : Int) < 14400; omega)
    simp only [delayTimeNextValues, ht, channelSmoothed, if_true]
    rw [hr.1, hr.2, settledState_retarget]
    norm_num
  refine ⟨hv, ?_⟩
  rw [(followDelayTime_channel _ true (settledState ratMath)).1, hv]
  intro h
  have h2 : ((25 : ℚ) + 1 / 960) = 25 + 2 / 960 := by
    simp only [channelDelayTime, if_true] at h
    linarith
  norm_num at h2

/-- With the channel's smoothed delay time at rest on the block's target `T`, `n`
follower steps leave it at rest and multiply the error `current - T` by `(-coeff) ^ n`. -/
theorem followDelayTime_iterate_rest (cs : ChainSettings α) (left : Bool)
    (s : ChorusAudioProcessor α)
    (ht : (channelSmoothed left s).target = channelTarget cs left)
    (hc : (channelSmoothed left s).countdown ≤ 0) :
    ∀ n : Nat,
      channelSmoothed left ((followDelayTime cs left)^[n] s) = channelSmoothed left s ∧
      ((followDelayTime cs left)^[n] s).coeff = s.coeff ∧
      channelDelayTime left ((followDelayTime cs left)^[n] s) - channelTarget cs left =
        (-s.coeff) ^ n * (channelDelayTime left s - channelTarget cs left) := by
  intro n
  induction n with
  | zero => simp
  | succ n ih =>
    obtain ⟨ih1, ih2, ih3⟩ := ih
    rw [Function.iterate_succ_apply']
    obtain ⟨h1, h2, -, h4, -⟩ :=
      followDelayTime_channel cs left ((followDelayTime cs left)^[n] s)
    obtain ⟨hv, hs⟩ := delayTimeNextValues_rest cs left ((followDelayTime cs left)^[n] s)
      (by rw [ih1]; exact ht) (by rw [ih1]; exact hc)
    refine ⟨?_, ?_, ?_⟩
    · rw [h2, hs, ih1]
    · rw [h4, ih2]
    · rw [h1, hv, ih2, pow_succ]
      simp only
      linear_combination (-s.coeff) * ih3

/-! ### The written sample with float special values -/

/-- On finite samples the float expression is the field expression. -/
theorem writtenSampleIEEE_finite (x y : α) :
    writtenSampleIEEE (.finite x) (.finite y) = .finite (writtenSample x y) := rfl

/-- C2 (evaluation): the value `processBlock` hands to `writeBuffer`,
`inData[sample] + 0 * delayedSample`, is the input `x` for every finite delayed sample,
but for a finite input `x` and a delayed sample that is `+inf`, `-inf` or NaN it is NaN,
not `x`: the written value depends on the delayed sample, and since NaN is written for a
NaN read, a NaN never leaves the delay line. -/
theorem written_sample_depends_on_delayed_sample (x : α) :
    (∀ y : α, writtenSampleIEEE (.finite x) (.finite y) = .finite x) ∧
    writtenSampleIEEE (.finite x) .posInf = .nan ∧
    writtenSampleIEEE (.finite x) .negInf = .nan ∧
    writtenSampleIEEE (.finite x) .nan = .nan ∧
    writtenSampleIEEE (.finite x) .posInf ≠ .finite x ∧
    writtenSampleIEEE (.finite x) .posInf ≠ writtenSampleIEEE (.finite x) (.finite 0) ∧
    (∀ input : IEEEFloat α, writtenSampleIEEE input .nan = .nan) := by
  have hfin : ∀ y : α, writtenSampleIEEE (.finite x) (.finite y) = .finite x := by
    intro y
    simp [writtenSampleIEEE, IEEEFloat.mul, IEEEFloat.add]
  have hpos : writtenSampleIEEE (.finite x) (.posInf : IEEEFloat α) = .nan := by
    simp [writtenSampleIEEE, IEEEFloat.mul, IEEEFloat.add]
  have hneg : writtenSampleIEEE (.finite x) (.negInf : IEEEFloat α) = .nan := by
    simp [writtenSampleIEEE, IEEEFloat.mul, IEEEFloat.add]
  have hnan : ∀ input : IEEEFloat α, writtenSampleIEEE input .nan = .nan := by
    intro input
    cases input <;> simp [writtenSampleIEEE, IEEEFloat.mul, IEEEFloat.add]
  refine ⟨hfin, hpos, hneg, hnan _, ?_, ?_, hnan⟩
  · rw [hpos]
    exact fun h => IEEEFloat.noConfusion h
  · rw [hpos, hfin]
    exact fun h => IEEEFloat.noConfusion h

end FieldLemmas

section Theorems

variable {α : Type} [LinearOrderedField α] [FloorRing α]

theorem mixStage_out (left : Bool) (x : α) (s : ChorusAudioProcessor α) :
    (mixStage left x s).2 = wetScale * x + dryWet *
      (channelBuffer left s).readBuffer
        (channelDelayTime left s * s.currentSampleRate / 1000) := by
  cases left <;> simp [mixStage, channelBuffer, channelDelayTime]

theorem mixStage_buffer (left : Bool) (x : α) (s : ChorusAudioProcessor α) :
    channelBuffer left (mixStage left x s).1 = (channelBuffer left s).writeBuffer x := by
  cases left <;> simp [mixStage, channelBuffer, writtenSample]

/-- With the chorus flag off, one sample step returns for every fuel. -/
theorem processSample_isSome_of_chorus_off (m : MathLib α) (fuel : Nat)
    (cs : ChainSettings α) (channel sample : Nat) (x : α) (s : ChorusAudioProcessor α)
    (hc : cs.chorus = false) :
    (processSample m fuel cs channel sample x s).isSome = true := by
  unfold processSample delayStage
  split_ifs <;> simp_all

/-! ### Reading the delay buffer at a whole number of samples -/

theorem readBuffer_of_position (b : CircularBuffer α) (x : α) (i : Nat)
    (h : b.readPosition x = (i : α)) : b.readBuffer x = b.buffer.getD i 0 := by
  simp [CircularBuffer.readBuffer, h]

theorem readBuffer_behind_cursor (b : CircularBuffer α) (d : Nat)
    (h1 : d ≤ b.writeIndex) (h2 : b.writeIndex - d < b.buffer.length) :
    b.readBuffer (d : α) = b.buffer.getD (b.writeIndex - d) 0 := by
  apply readBuffer_of_position
  have hcap : (0 : α) < (b.buffer.length : α) := by
    exact_mod_cast (by omega : 0 < b.buffer.length)
  have hpos : (b.writeIndex : α) - (d : α) = ((b.writeIndex - d : Nat) : α) := by
    rw [Nat.cast_sub h1]
  have hfl : ⌊((b.writeIndex - d : Nat) : α) / (b.buffer.length : α)⌋ = 0 := by
    rw [Int.floor_eq_iff]
    constructor
    · simpa using div_nonneg (Nat.cast_nonneg _) hcap.le
    · rw [Int.cast_zero, zero_add, div_lt_one hcap]
      exact_mod_cast h2
  simp only [CircularBuffer.readPosition, hpos, hfl]
  simp

theorem readBuffer_wrapped (b : CircularBuffer α) (d : Nat)
    (h1 : b.writeIndex < d) (h2 : d ≤ b.writeIndex + b.buffer.length) :
    b.readBuffer (d : α) = b.buffer.getD (b.writeIndex + b.buffer.length - d) 0 := by
  apply readBuffer_of_position
  have hcap : (0 : α) < (b.buffer.length : α) := by
    exact_mod_cast (by omega : 0 < b.buffer.length)
  have hd : (b.writeIndex : α) < (d : α) := by exact_mod_cast h1
  have hd2 : (d : α) ≤ (b.writeIndex : α) + (b.buffer.length : α) := by exact_mod_cast h2
  have hfl : ⌊((b.writeIndex : α) - (d : α)) / (b.buffer.length : α)⌋ = -1 := by
    rw [Int.floor_eq_iff]
    constructor
    · rw [le_div_iff₀ hcap]
      push_cast
      linarith
    · rw [div_lt_iff₀ hcap]
      push_cast
      linarith
  simp only [CircularBuffer.readPosition, hfl]
  rw [Nat.cast_sub h2]
  push_cast
  ring

/-! ### Impulse response of the left channel -/

/-- With the chorus flag off and the left delay time at rest on the target, a sample
step of channel 0 is the mix stage on the unchanged state. -/
theorem processSample_left_rest (m : MathLib α) (fuel : Nat) (cs : ChainSettings α)
    (sample : Nat) (x : α) (s : ChorusAudioProcessor α) (hc : cs.chorus = false)
    (ht : s.smoothedDelayTimeLeft.target = newDelayTimeLeft cs)
    (hcd : s.smoothedDelayTimeLeft.countdown ≤ 0)
    (hdt : s.delayTimeLeft = newDelayTimeLeft cs) :
    processSample m fuel cs 0 sample x s = some (mixStage true x s) := by
  have hs : followDelayTime cs true s = s := by
    rw [followDelayTime_rest_left cs s ht hcd, ← hdt]
    simp
  simp [processSample, delayStage, hs, hc]

/-- The sample step that receives the impulse: output 0.5, impulse stored in slot 0. -/
theorem impulse_first_step (m : MathLib α) (fuel : Nat) (cs : ChainSettings α)
    (s : ChorusAudioProcessor α) (hc : cs.chorus = false) (hcs : cs.delayTimeLeft = 25)
    (hsr : s.currentSampleRate = 48000) (hdt : s.delayTimeLeft = 25)
    (ht : s.smoothedDelayTimeLeft.target = 25)
    (hcd : s.smoothedDelayTimeLeft.countdown ≤ 0)
    (hbuf : s.circBuffLeft = { buffer := List.replicate 96000 0, writeIndex := 0 }) :
    ∃ s1 : ChorusAudioProcessor α,
      processSample m fuel cs 0 0 1 s = some (s1, 1 / 2) ∧ impulseInFlight 1 s1 := by
  obtain ⟨cap, hcap, hb⟩ : ∃ cap : Nat, cap = 96000 ∧
      s.circBuffLeft = { buffer := List.replicate cap 0, writeIndex := 0 } :=
    ⟨96000, rfl, hbuf⟩
  clear hbuf
  have hstep := processSample_left_rest m fuel cs 0 1 s hc
    (by rw [ht, newDelayTimeLeft, hcs]) hcd (by rw [hdt, newDelayTimeLeft, hcs])
  have hdelay : s.delayTimeLeft * s.currentSampleRate / 1000 = ((1200 : Nat) : α) := by
    rw [hdt, hsr]
    norm_num
  have hw : s.circBuffLeft.writeIndex = 0 := by rw [hb]
  have hlen : s.circBuffLeft.buffer.length = cap := by rw [hb, List.length_replicate]
  have hget : ∀ i : Nat, s.circBuffLeft.buffer.getD i 0 = 0 := by
    intro i
    rw [hb, List.getD_eq_getElem?_getD, List.getElem?_replicate]
    split_ifs <;> rfl
  have hread : s.circBuffLeft.readBuffer ((1200 : Nat) : α) = 0 := by
    rw [readBuffer_wrapped _ 1200 (by omega) (by omega)]
    exact hget _
  refine ⟨(mixStage true 1 s).1, ?_, ?_⟩
  · rw [hstep]
    congr 1
    refine Prod.ext rfl ?_
    simp only [mixStage_out, channelBuffer, channelDelayTime, if_true, hdelay, hread,
      wetScale_eq, dryWet_eq]
    norm_num
  · simp only [impulseInFlight, mixStage, if_true, hdelay, hread, writtenSample,
      CircularBuffer.writeBuffer]
    refine ⟨hsr, hdt, ht, hcd, ?_, ?_, ?_, ?_⟩
    · rw [hw, hlen, hcap]
    · rw [List.length_set, hlen, hcap]
    · rw [hw, List.getD_eq_getElem?_getD, List.getElem?_set]
      have : 0 < s.circBuffLeft.buffer.length := by omega
      simp [this]
    · intro i hi
      have hne : ¬ (0 = i) := by omega
      have := hget i
      rw [List.getD_eq_getElem?_getD] at this ⊢
      rw [hw, List.getElem?_set, if_neg hne]
      exact this

/-- A later sample step with input 0: the output is the impulse when the cursor is 1200
samples past it and 0 before that. -/
theorem impulse_later_step (m : MathLib α) (fuel : Nat) (cs : ChainSettings α)
    (sample n : Nat) (s : ChorusAudioProcessor α) (hc : cs.chorus = false)
    (hcs : cs.delayTimeLeft = 25) (hn1 : 1 ≤ n) (hn2 : n ≤ 1200)
    (h : impulseInFlight n s) :
    ∃ s1 : ChorusAudioProcessor α,
      processSample m fuel cs 0 sample 0 s = some (s1, if n = 1200 then 1 else 0) ∧
      impulseInFlight (n + 1) s1 := by
  obtain ⟨hsr, hdt, ht, hcd, hw, hlen, h0, hrest⟩ := h
  have hstep := processSample_left_rest m fuel cs sample 0 s hc
    (by rw [ht, newDelayTimeLeft, hcs]) hcd (by rw [hdt, newDelayTimeLeft, hcs])
  have hdelay : s.delayTimeLeft * s.currentSampleRate / 1000 = ((1200 : Nat) : α) := by
    rw [hdt, hsr]
    norm_num
  have hread : s.circBuffLeft.readBuffer ((1200 : Nat) : α) = if n = 1200 then 1 else 0 := by
    by_cases hn : n = 1200
    · rw [readBuffer_behind_cursor _ 1200 (by omega) (by omega), if_pos hn, hw, hn]
      exact h0
    · rw [readBuffer_wrapped _ 1200 (by omega) (by omega), if_neg hn]
      exact hrest _ (by omega)
  refine ⟨(mixStage true 0 s).1, ?_, ?_⟩
  · rw [hstep]
    congr 1
    refine Prod.ext rfl ?_
    simp only [mixStage_out, channelBuffer, channelDelayTime, if_true, hdelay, hread,
      wetScale_eq, dryWet_eq]
    simp
  · simp only [impulseInFlight, mixStage, if_true, hdelay, hread, writtenSample,
      CircularBuffer.writeBuffer]
    refine ⟨hsr, hdt, ht, hcd, ?_, by simpa using hlen, ?_, ?_⟩
    · rw [hw, hlen]
      exact Nat.mod_eq_of_lt (by omega)
    · have hne : ¬ (n = 0) := by omega
      have hne2 : ¬ (s.circBuffLeft.writeIndex = 0) := by omega
      rw [← h0]
      simp [List.getD_eq_getElem?_getD, List.getElem?_set, hne2]
    · intro i hi
      have := hrest i hi
      rw [List.getD_eq_getElem?_getD] at this ⊢
      rw [List.getElem?_set]
      split_ifs <;> first | exact this | simp

/-- From `n` samples after the impulse up to sample 1200 on zero input: the outputs are 0
until the impulse comes out of the delay line with value 1. -/
theorem impulse_tail (m : MathLib α) (fuel : Nat) (cs : ChainSettings α)
    (hc : cs.chorus = false) (hcs : cs.delayTimeLeft = 25) :
    ∀ (j n sample : Nat) (s : ChorusAudioProcessor α), 1 ≤ n → n + j = 1200 →
      impulseInFlight n s →
      ∃ s1 : ChorusAudioProcessor α,
        processSamples m fuel cs 0 sample (List.replicate (j + 1) 0) s =
          some (s1, List.replicate j 0 ++ [1]) := by
  intro j
  induction j with
  | zero =>
    intro n sample s hn1 hn h
    obtain ⟨s1, hs1, _⟩ := impulse_later_step m fuel cs sample n s hc hcs hn1 (by omega) h
    refine ⟨s1, ?_⟩
    have hn' : n = 1200 := by omega
    simp [processSamples, List.replicate, hs1, hn']
  | succ j ih =>
    intro n sample s hn1 hn h
    obtain ⟨s1, hs1, hinv⟩ := impulse_later_step m fuel cs sample n s hc hcs hn1 (by omega) h
    obtain ⟨s2, hs2⟩ := ih (n + 1) (sample + 1) s1 (by omega) (by omega) hinv
    refine ⟨s2, ?_⟩
    have hn' : ¬ (n = 1200) := by omega
    rw [List.replicate_succ, processSamples, hs1]
    simp only [hs2, if_neg hn']
    rfl

/-- The left channel's response to a unit impulse at 48000 Hz, delay time at rest on
25 ms, fresh buffer, chorus off: 0.5 at sample 0, then 0 up to sample 1199 and 1 at
sample 1200. -/
theorem impulse_response (m : MathLib α) (fuel : Nat) (cs : ChainSettings α)
    (s : ChorusAudioProcessor α) (hc : cs.chorus = false) (hcs : cs.delayTimeLeft = 25)
    (hsr : s.currentSampleRate = 48000) (hdt : s.delayTimeLeft = 25)
    (ht : s.smoothedDelayTimeLeft.target = 25)
    (hcd : s.smoothedDelayTimeLeft.countdown ≤ 0)
    (hbuf : s.circBuffLeft = { buffer := List.replicate 96000 0, writeIndex := 0 }) :
    ∃ s1 : ChorusAudioProcessor α,
      processSamples m fuel cs 0 0 (1 :: List.replicate 1200 0) s =
        some (s1, 1 / 2 :: (List.replicate 1199 0 ++ [1])) := by
  obtain ⟨s1, hs1, hinv⟩ := impulse_first_step m fuel cs s hc hcs hsr hdt ht hcd hbuf
  obtain ⟨s2, hs2⟩ := impulse_tail m fuel cs hc hcs 1199 1 1 s1 (le_refl _) rfl hinv
  refine ⟨s2, ?_⟩
  rw [processSamples, hs1]
  simp only [hs2]

/-- After `prepareToPlay` at 48000 Hz both delay buffers hold 96000 zeros. -/
theorem prepareToPlay_48000_buffers (m : MathLib α) (s : ChorusAudioProcessor α) :
    (prepareToPlay m 48000 s).circBuffLeft =
      { buffer := List.replicate 96000 0, writeIndex := 0 } ∧
    (prepareToPlay m 48000 s).circBuffRight =
      { buffer := List.replicate 96000 0, writeIndex := 0 } := by
  have hfl : ⌊(2 : α) * 48000⌋ = ((96000 : Nat) : Int) := by
    rw [Int.floor_eq_iff]
    constructor <;> norm_num
  have hcreate : (CircularBuffer.createCircularBuffer ((96000 : Nat) : Int) :
      Option (CircularBuffer α)) =
      some { buffer := List.replicate 96000 0, writeIndex := 0 } := by
    unfold CircularBuffer.createCircularBuffer
    rw [if_neg (by omega), Int.toNat_ofNat]
  simp only [prepareToPlay, hfl, hcreate, Option.getD_some, CircularBuffer.flushBuffer,
    List.length_replicate, and_self]

/-- C3 (as stated, refuted): at 48000 Hz, from the settled state with fresh buffers,
delay time 25 ms and the chorus flag off, the left channel answers a unit impulse with
0.5 at sample 0 and 1 at sample 1200; it is not 0 on samples 0..1199 and 0.5 at
sample 1200. -/
theorem impulse_scenario_as_stated_fails :
    ∃ (s1 : ChorusAudioProcessor ℚ) (outs : List ℚ),
      processSamples ratMath 1
        (getChainSettings (Function.update defaultParameters "Chorus" (boolRaw true)))
        0 0 (1 :: List.replicate 1200 0) (settledState ratMath) = some (s1, outs) ∧
      outs.getD 0 0 = 1 / 2 ∧ outs.getD 1200 0 = 1 ∧
      ¬ ((∀ i : Nat, i < 1200 → outs.getD i 0 = 0) ∧ outs.getD 1200 0 = 1 / 2) := by
  have hc : (getChainSettings (Function.update (defaultParameters : ParameterStore ℚ)
      "Chorus" (boolRaw true))).chorus = false := by
    have : ¬ ((1 : ℚ) < 2⁻¹) := by norm_num
    simp [getChainSettings, boolRaw, this]
  have hcs : (getChainSettings (Function.update (defaultParameters : ParameterStore ℚ)
      "Chorus" (boolRaw true))).delayTimeLeft = 25 := by
    simp [getChainSettings, defaultParameters, Function.update]
  obtain ⟨s1, hs1⟩ := impulse_response ratMath 1 _ (settledState ratMath) hc hcs
    rfl rfl rfl (le_refl _) rfl
  have h0 : (1 / 2 :: (List.replicate 1199 (0 : ℚ) ++ [1])).getD 0 0 = 1 / 2 := rfl
  refine ⟨s1, _, hs1, h0, ?_, ?_⟩
  · rw [List.getD_eq_getElem?_getD, List.getElem?_cons_succ,
      List.getElem?_append_right (by rw [List.length_replicate]), List.length_replicate]
    rfl
  · rintro ⟨hz, -⟩
    have := hz 0 (by omega)
    rw [h0] at this
    norm_num at this

/-- C3 (amended): at 48000 Hz, with the left delay buffer freshly prepared (96000 zeros,
cursor 0), the left delay time at rest on 25 ms (1200 samples), the chorus flag off and
dry/wet 1, the left channel answers a unit impulse at sample 0 followed by zeros with
0.5 at sample 0, 0 on samples 1..1199 and 1 at sample 1200, for every fuel. -/
theorem impulse_scenario (m : MathLib α) (fuel : Nat) (cs : ChainSettings α)
    (s : ChorusAudioProcessor α) (hc : cs.chorus = false) (hcs : cs.delayTimeLeft = 25)
    (hsr : s.currentSampleRate = 48000) (hdt : s.delayTimeLeft = 25)
    (ht : s.smoothedDelayTimeLeft.target = 25)
    (hcd : s.smoothedDelayTimeLeft.countdown ≤ 0)
    (hbuf : s.circBuffLeft = { buffer := List.replicate 96000 0, writeIndex := 0 }) :
    (dryWet : α) = 1 ∧
    ∃ s1 : ChorusAudioProcessor α,
      processSamples m fuel cs 0 0 (1 :: List.replicate 1200 0) s =
        some (s1, 1 / 2 :: (List.replicate 1199 0 ++ [1])) :=
  ⟨rfl, impulse_response m fuel cs s hc hcs hsr hdt ht hcd hbuf⟩

/-- Witness for C3: the state `prepareToPlay` produces at 48000 Hz from the settled
state, with the "Chorus" bool on (flag off) and the other parameters at their defaults. -/
theorem impulse_scenario_witness :
    (getChainSettings (Function.update (defaultParameters : ParameterStore ℚ)
      "Chorus" (boolRaw true))).chorus = false ∧
    (getChainSettings (Function.update (defaultParameters : ParameterStore ℚ)
      "Chorus" (boolRaw true))).delayTimeLeft = 25 ∧
    (prepareToPlay ratMath 48000 (settledState ratMath)).circBuffLeft =
      { buffer := List.replicate 96000 0, writeIndex := 0 } ∧
    ∃ s1 : ChorusAudioProcessor ℚ,
      processSamples ratMath 0
        (getChainSettings (Function.update defaultParameters "Chorus" (boolRaw true)))
        0 0 (1 :: List.replicate 1200 0) (prepareToPlay ratMath 48000 (settledState ratMath)) =
        some (s1, 1 / 2 :: (List.replicate 1199 0 ++ [1])) := by
  have hc : (getChainSettings (Function.update (defaultParameters : ParameterStore ℚ)
      "Chorus" (boolRaw true))).chorus = false := by
    have : ¬ ((1 : ℚ) < 2⁻¹) := by norm_num
    simp [getChainSettings, boolRaw, this]
  have hcs : (getChainSettings (Function.update (defaultParameters : ParameterStore ℚ)
      "Chorus" (boolRaw true))).delayTimeLeft = 25 := by
    simp [getChainSettings, defaultParameters, Function.update]
  have hbuf := (prepareToPlay_48000_buffers ratMath (settledState ratMath)).1
  exact ⟨hc, hcs, hbuf,
    (impulse_scenario ratMath 0 _ (prepareToPlay ratMath 48000 (settledState ratMath))
      hc hcs rfl rfl rfl (le_refl _) hbuf).2⟩

/-! ### The chorus across blocks: sample steps with the guard open -/

/-- One sample step of channel 0 (`left = true`) or 1 with the engine at rest and the
chorus running, the advanced phase staying below `2 * pi`: the step returns, the engine
stays at rest, the phase advances by `2 * pi * rate / sampleRate`, and the modulation is
`depth * sin (2 * pi * rate * sample / sampleRate + phase)`. -/
theorem chorus_step (m : MathLib α) (fuel : Nat) (cs : ChainSettings α) (left : Bool)
    (sample : Nat) (x : α) (s : ChorusAudioProcessor α) (hJ : chorusAtRest m cs s)
    (hlt : s.chorusPhase + 2 * m.pi * cs.rate / s.currentSampleRate < 2 * m.pi) :
    ∃ r : ChorusAudioProcessor α × α,
      processSample m (fuel + 1) cs (if left then 0 else 1) sample x s = some r ∧
      chorusAtRest m cs r.1 ∧ r.1.currentSampleRate = s.currentSampleRate ∧
      r.1.chorusPhase = s.chorusPhase + 2 * m.pi * cs.rate / s.currentSampleRate ∧
      r.1.chorusModulation = cs.depth *
        m.sin (2 * m.pi * cs.rate * (sample : α) / s.currentSampleRate + s.chorusPhase) := by
  obtain ⟨⟨hch, hdep, hrate, hTL, hTR, hpi, hsin⟩, ⟨hd1, hd2, hd3, hr1, hr2, hr3⟩,
    ⟨hl1, hl2, hR1, hR2⟩, ⟨hbl, hbr⟩, ⟨hc0, hc1, hsr, hio⟩⟩ := hJ
  have hmod : |cs.depth * m.sin (2 * m.pi * cs.rate * (sample : α) / s.currentSampleRate
      + s.chorusPhase)| ≤ 1 / 4 := by
    rw [abs_mul]
    calc |cs.depth| * |m.sin (2 * m.pi * cs.rate * (sample : α) / s.currentSampleRate
          + s.chorusPhase)| ≤ 1 / 4 * 1 :=
          mul_le_mul hdep (hsin _) (abs_nonneg _) (by norm_num)
      _ = 1 / 4 := by norm_num
  cases left
  · have hb := delay_time_bounds (newDelayTimeRight cs) s.delayTimeRight s.coeff _
      hbr hc0 hc1 hmod hTR
    have hfol := followDelayTime_rest_right cs s hR1 hR2
    have hap := applyChorus_no_wrap_eq m fuel sample false
      { s with delayTimeRight :=
          newDelayTimeRight cs + (newDelayTimeRight cs - s.delayTimeRight) * s.coeff }
      (by simpa only [hr3] using hlt)
    simp only [Bool.false_eq_true, if_false] at hap
    have hstage : delayStage m (fuel + 1) cs false sample s =
        applyChorus m (fuel + 1) sample false (followDelayTime cs false s) := by
      unfold delayStage
      rw [if_pos ⟨hch, by rw [hfol]; simpa [channelDelayTime] using hb.1⟩]
    rw [hfol, hap] at hstage
    have hps : processSample m (fuel + 1) cs (if false = true then 0 else 1) sample x s =
        (delayStage m (fuel + 1) cs false sample s).map (mixStage false x) := by
      simp [processSample]
    rw [hstage, Option.map_some'] at hps
    refine ⟨_, hps, ?_, ?_, ?_, ?_⟩
    · refine ⟨⟨hch, hdep, hrate, hTL, hTR, hpi, hsin⟩, ⟨hd1, hd2, hd3, hr1, hr2, hr3⟩,
        ⟨hl1, hl2, hR1, hR2⟩, ⟨hbl, ?_⟩, ⟨hc0, hc1, hsr, hio⟩⟩
      simpa only [mixStage, Bool.false_eq_true, if_false, hd3, hr3] using hb.2
    · rfl
    · simp only [mixStage, Bool.false_eq_true, if_false, hr3]
    · simp only [mixStage, Bool.false_eq_true, if_false, hr3, hd3]
  · have hb := delay_time_bounds (newDelayTimeLeft cs) s.delayTimeLeft s.coeff _
      hbl hc0 hc1 hmod hTL
    have hfol := followDelayTime_rest_left cs s hl1 hl2
    have hap := applyChorus_no_wrap_eq m fuel sample true
      { s with delayTimeLeft :=
          newDelayTimeLeft cs + (newDelayTimeLeft cs - s.delayTimeLeft) * s.coeff }
      (by simpa only [hr3] using hlt)
    simp only [if_true] at hap
    have hstage : delayStage m (fuel + 1) cs true sample s =
        applyChorus m (fuel + 1) sample true (followDelayTime cs true s) := by
      unfold delayStage
      rw [if_pos ⟨hch, by rw [hfol]; simpa [channelDelayTime] using hb.1⟩]
    rw [hfol, hap] at hstage
    have hps : processSample m (fuel + 1) cs (if true = true then 0 else 1) sample x s =
        (delayStage m (fuel + 1) cs true sample s).map (mixStage true x) := by
      simp [processSample]
    rw [hstage, Option.map_some'] at hps
    refine ⟨_, hps, ?_, ?_, ?_, ?_⟩
    · refine ⟨⟨hch, hdep, hrate, hTL, hTR, hpi, hsin⟩, ⟨hd1, hd2, hd3, hr1, hr2, hr3⟩,
        ⟨hl1, hl2, hR1, hR2⟩, ⟨?_, hbr⟩, ⟨hc0, hc1, hsr, hio⟩⟩
      simpa only [mixStage, if_true, hd3, hr3] using hb.2
    · rfl
    · simp only [mixStage, if_true, hr3]
    · simp only [mixStage, if_true, hr3, hd3]

/-- The sample loop of one channel with the engine at rest and the chorus running, no
wrap of the phase within the run: the loop returns, the phase advances once per sample,
and the last modulation value is that of the last sample index with the phase reached
before it. -/
theorem chorus_run (m : MathLib α) (fuel : Nat) (cs : ChainSettings α) (left : Bool) :
    ∀ (xs : List α) (sample : Nat) (s : ChorusAudioProcessor α), chorusAtRest m cs s →
      s.chorusPhase + (xs.length : α) * (2 * m.pi * cs.rate / s.currentSampleRate)
        < 2 * m.pi →
      ∃ r : ChorusAudioProcessor α × List α,
        processSamples m (fuel + 1) cs (if left then 0 else 1) sample xs s = some r ∧
        chorusAtRest m cs r.1 ∧ r.1.currentSampleRate = s.currentSampleRate ∧
        r.1.chorusPhase =
          s.chorusPhase + (xs.length : α) * (2 * m.pi * cs.rate / s.currentSampleRate) ∧
        (xs = [] → r.1 = s) ∧
        (∀ k : Nat, xs.length = k + 1 → r.1.chorusModulation = cs.depth *
          m.sin (2 * m.pi * cs.rate * ((sample + k : Nat) : α) / s.currentSampleRate
            + (s.chorusPhase + (k : α) * (2 * m.pi * cs.rate / s.currentSampleRate)))) := by
  intro xs
  induction xs with
  | nil =>
    intro sample s hJ _
    refine ⟨(s, []), by simp [processSamples], hJ, rfl, by simp, fun _ => rfl, ?_⟩
    intro k hk
    simp at hk
  | cons x rest ih =>
    intro sample s hJ hb
    have hinc := chorusAtRest_inc_nonneg m cs s hJ
    have hlen : (0 : α) ≤ (rest.length : α) := Nat.cast_nonneg _
    simp only [List.length_cons, Nat.cast_add, Nat.cast_one] at hb
    have hlt : s.chorusPhase + 2 * m.pi * cs.rate / s.currentSampleRate < 2 * m.pi := by
      nlinarith
    obtain ⟨⟨s1, o1⟩, hstep, hJ1, hsr1, hph1, hmod1⟩ :=
      chorus_step m fuel cs left sample x s hJ hlt
    simp only at hJ1 hsr1 hph1 hmod1
    have hb1 : s1.chorusPhase +
        (rest.length : α) * (2 * m.pi * cs.rate / s1.currentSampleRate) < 2 * m.pi := by
      rw [hsr1, hph1]
      linarith
    obtain ⟨⟨s2, o2⟩, hrun, hJ2, hsr2, hph2, hnil2, hmod2⟩ := ih (sample + 1) s1 hJ1 hb1
    simp only at hJ2 hsr2 hph2 hnil2 hmod2
    refine ⟨(s2, o1 :: o2), ?_, hJ2, hsr2.trans hsr1, ?_, by simp, ?_⟩
    · simp only [processSamples, hstep, hrun]
    · simp only [List.length_cons, Nat.cast_add, Nat.cast_one]
      rw [hph2, hsr1, hph1]
      ring
    · intro k hk
      simp only [List.length_cons, Nat.add_right_cancel_iff] at hk
      cases k with
      | zero =>
        have hr : rest = [] := List.length_eq_zero.mp hk
        rw [hnil2 hr, hmod1]
        simp
      | succ k =>
        rw [hmod2 k hk, hsr1, hph1]
        congr 2
        push_cast
        ring

/-- A stereo block of `n + 1` samples per channel through `processBlock`, engine at rest,
chorus running, no wrap of the phase within the block: the call returns, the phase has
advanced `2 * (n + 1)` times, and the modulation left behind is the right channel's at
sample index `n`, computed with the phase after `(n + 1) + n` advances. -/
theorem chorus_block (m : MathLib α) (fuel : Nat) (apvts : ParameterStore α)
    (l r : List α) (n : Nat) (s : ChorusAudioProcessor α)
    (hJ : chorusAtRest m (getChainSettings apvts) s)
    (hl : l.length = n + 1) (hr : r.length = n + 1)
    (hb : s.chorusPhase + (2 * ((n : α) + 1)) *
      (2 * m.pi * (getChainSettings apvts).rate / s.currentSampleRate) < 2 * m.pi) :
    ∃ q : ChorusAudioProcessor α × List (List α),
      processBlock m (fuel + 1) apvts [l, r] s = some q ∧
      chorusAtRest m (getChainSettings apvts) q.1 ∧
      q.1.currentSampleRate = s.currentSampleRate ∧
      q.1.chorusPhase = s.chorusPhase + (2 * ((n : α) + 1)) *
        (2 * m.pi * (getChainSettings apvts).rate / s.currentSampleRate) ∧
      q.1.chorusModulation = (getChainSettings apvts).depth *
        m.sin (2 * m.pi * (getChainSettings apvts).rate * (n : α) / s.currentSampleRate
          + (s.chorusPhase + (2 * (n : α) + 1) *
            (2 * m.pi * (getChainSettings apvts).rate / s.currentSampleRate))) := by
  have hinc := chorusAtRest_inc_nonneg m _ s hJ
  have hn : (0 : α) ≤ (n : α) := Nat.cast_nonneg _
  obtain ⟨⟨s1, o1⟩, hrun1, hJ1, hsr1, hph1, -, -⟩ :=
    chorus_run m fuel (getChainSettings apvts) true l 0 s hJ (by
      rw [hl]
      push_cast
      nlinarith)
  simp only at hJ1 hsr1 hph1
  obtain ⟨⟨s2, o2⟩, hrun2, hJ2, hsr2, hph2, -, hmod2⟩ :=
    chorus_run m fuel (getChainSettings apvts) false r 0 s1 hJ1 (by
      rw [hr, hsr1, hph1, hl]
      push_cast
      nlinarith)
  simp only at hJ2 hsr2 hph2 hmod2
  simp only [if_true] at hrun1
  simp only [Bool.false_eq_true, if_false] at hrun2
  have hpb : processBlock m (fuel + 1) apvts [l, r] s =
      some ({ s2 with lastDelayTimeLeft := newDelayTimeLeft (getChainSettings apvts)
                      lastDelayTimeRight := newDelayTimeRight (getChainSettings apvts) },
        [o1, o2]) := by
    simp only [processBlock]
    rw [hJ.2.2.2.2.2.2.2, clearExtraChannels_same, updateChorusParams_rest m _ s hJ]
    simp only [processChannels, hrun1, zero_add, hrun2, Option.map_some']
  refine ⟨_, hpb, ?_, ?_, ?_, ?_⟩
  · exact hJ2
  · exact hsr2.trans hsr1
  · simp only
    rw [hph2, hsr1, hph1, hl, hr]
    push_cast
    ring
  · simp only
    rw [hmod2 n hr, hsr1, hph1, hl]
    congr 2
    push_cast
    ring

/-- The settled 48 kHz state over the reals, with the real sine, exponential and pi, is
at rest for the default parameters with the chorus running. -/
theorem settledState_chorusAtRest :
    chorusAtRest (MathLib.mk Real.sin Real.exp Real.pi)
      (getChainSettings (defaultParameters : ParameterStore ℝ))
      (settledState (MathLib.mk Real.sin Real.exp Real.pi)) := by
  rw [getChainSettings_defaults]
  have he1 : Real.exp (-1 / (1 / 10 * 48000)) ≤ 1 :=
    Real.exp_le_one_iff.mpr (by norm_num)
  have he2 := Real.add_one_le_exp (-1 / (1 / 10 * 48000))
  refine ⟨⟨rfl, ?_, ?_, ?_, ?_, Real.pi_pos, fun x => Real.abs_sin_le_one x⟩,
    ⟨rfl, le_refl _, rfl, rfl, le_refl _, rfl⟩, ⟨rfl, le_refl _, ?_, le_refl _⟩,
    ⟨?_, ?_⟩, ⟨?_, ?_, ?_, rfl⟩⟩
  · norm_num [abs_of_pos]
  · norm_num
  · norm_num [newDelayTimeLeft]
  · norm_num [newDelayTimeRight]
  · rfl
  · show |(25 : ℝ) - 25| ≤ 1
    norm_num
  · show |(25 : ℝ) - 25| ≤ 1
    norm_num
  · show (0 : ℝ) ≤ 1 - Real.exp (-1 / (1 / 10 * 48000))
    linarith
  · show 1 - Real.exp (-1 / (1 / 10 * 48000)) ≤ (1 / 2 : ℝ)
    norm_num at he2 ⊢
    linarith
  · show (0 : ℝ) < 48000
    norm_num

/-- C9 (evaluation): from the settled 48 kHz state with the default parameters (chorus
running, rate 1.5 Hz, depth 0.25), two consecutive stereo blocks of one sample leave the
right channel's modulation for the second sample at `0.25 * sin (3 * pi / 16000)`, while
one stereo block of two samples leaves it at `0.25 * sin (4 * pi / 16000)`: the
modulation of the same sample differs with the block boundary. -/
theorem chorus_modulation_depends_on_block_boundary :
    ∃ qA qB qC : ChorusAudioProcessor ℝ × List (List ℝ),
      processBlock (MathLib.mk Real.sin Real.exp Real.pi) 1 defaultParameters [[0], [0]]
        (settledState (MathLib.mk Real.sin Real.exp Real.pi)) = some qA ∧
      processBlock (MathLib.mk Real.sin Real.exp Real.pi) 1 defaultParameters [[0], [0]]
        qA.1 = some qB ∧
      processBlock (MathLib.mk Real.sin Real.exp Real.pi) 1 defaultParameters
        [[0, 0], [0, 0]] (settledState (MathLib.mk Real.sin Real.exp Real.pi)) = some qC ∧
      qB.1.chorusModulation = 1 / 4 * Real.sin (3 * (Real.pi / 16000)) ∧
      qC.1.chorusModulation = 1 / 4 * Real.sin (4 * (Real.pi / 16000)) ∧
      qB.1.chorusModulation ≠ qC.1.chorusModulation := by
  have hpi := Real.pi_pos
  have hJ := settledState_chorusAtRest
  have hrate : (getChainSettings (defaultParameters : ParameterStore ℝ)).rate = 3 / 2 := by
    rw [getChainSettings_defaults]
  have hdepth : (getChainSettings (defaultParameters : ParameterStore ℝ)).depth = 1 / 4 := by
    rw [getChainSettings_defaults]
  have hsr0 : (settledState (MathLib.mk Real.sin Real.exp Real.pi)).currentSampleRate
      = 48000 := rfl
  have hph0 : (settledState (MathLib.mk Real.sin Real.exp Real.pi)).chorusPhase = 0 := rfl
  obtain ⟨qA, hA, hJA, hsrA, hphA, -⟩ :=
    chorus_block (MathLib.mk Real.sin Real.exp Real.pi) 0 defaultParameters [0] [0] 0
      _ hJ rfl rfl (by
        rw [hrate, hsr0, hph0]
        norm_num
        linarith)
  obtain ⟨qB, hB, -, -, -, hmodB⟩ :=
    chorus_block (MathLib.mk Real.sin Real.exp Real.pi) 0 defaultParameters [0] [0] 0
      qA.1 hJA rfl rfl (by
        rw [hrate, hsrA, hphA, hrate, hsr0, hph0]
        norm_num
        linarith)
  obtain ⟨qC, hC, -, -, -, hmodC⟩ :=
    chorus_block (MathLib.mk Real.sin Real.exp Real.pi) 0 defaultParameters [0, 0] [0, 0] 1
      _ hJ rfl rfl (by
        rw [hrate, hsr0, hph0]
        norm_num
        linarith)
  have hmB : qB.1.chorusModulation = 1 / 4 * Real.sin (3 * (Real.pi / 16000)) := by
    rw [hmodB, hdepth, hrate, hsrA, hphA, hrate, hsr0, hph0]
    congr 1
    show Real.sin (2 * Real.pi * (3 / 2) * ((0 : Nat) : ℝ) / 48000 +
      (0 + 2 * (((0 : Nat) : ℝ) + 1) * (2 * Real.pi * (3 / 2) / 48000) +
        (2 * ((0 : Nat) : ℝ) + 1) * (2 * Real.pi * (3 / 2) / 48000))) =
      Real.sin (3 * (Real.pi / 16000))
    congr 1
    push_cast
    ring
  have hmC : qC.1.chorusModulation = 1 / 4 * Real.sin (4 * (Real.pi / 16000)) := by
    rw [hmodC, hdepth, hrate, hsr0, hph0]
    congr 1
    show Real.sin (2 * Real.pi * (3 / 2) * ((1 : Nat) : ℝ) / 48000 +
      (0 + (2 * ((1 : Nat) : ℝ) + 1) * (2 * Real.pi * (3 / 2) / 48000))) =
      Real.sin (4 * (Real.pi / 16000))
    congr 1
    push_cast
    ring
  refine ⟨qA, qB, qC, hA, hB, hC, hmB, hmC, ?_⟩
  rw [hmB, hmC]
  have hlt : Real.sin (3 * (Real.pi / 16000)) < Real.sin (4 * (Real.pi / 16000)) :=
    Real.sin_lt_sin_of_lt_of_le_pi_div_two (by linarith) (by linarith) (by linarith)
  intro h
  linarith

/-! ### What `prepareToPlay` resets -/

/-- After `reset` a smoothed parameter is at rest on the target it held before. -/
theorem reset_rest (v : SmoothedValue α) (sampleRate rampLengthInSeconds : α) :
    (v.reset sampleRate rampLengthInSeconds).target = v.target ∧
    (v.reset sampleRate rampLengthInSeconds).currentValue = v.target ∧
    (v.reset sampleRate rampLengthInSeconds).countdown = 0 ∧
    (v.reset sampleRate rampLengthInSeconds).stepsToTarget =
      ⌊rampLengthInSeconds * sampleRate⌋ :=
  ⟨rfl, rfl, rfl, rfl⟩

/-- When `2 * sampleRate` is at least 1, `prepareToPlay` leaves both delay buffers with
`floor (2 * sampleRate)` zeros and the cursor at 0. -/
theorem prepareToPlay_buffers (m : MathLib α) (sampleRate : α) (s : ChorusAudioProcessor α)
    (h : 1 ≤ 2 * sampleRate) :
    (prepareToPlay m sampleRate s).circBuffLeft =
      { buffer := List.replicate ⌊2 * sampleRate⌋.toNat 0, writeIndex := 0 } ∧
    (prepareToPlay m sampleRate s).circBuffRight =
      { buffer := List.replicate ⌊2 * sampleRate⌋.toNat 0, writeIndex := 0 } := by
  have hpos : ¬ (⌊2 * sampleRate⌋ ≤ 0) := by
    have : (1 : Int) ≤ ⌊2 * sampleRate⌋ := Int.le_floor.mpr (by simpa using h)
    omega
  simp only [prepareToPlay, CircularBuffer.createCircularBuffer, if_neg hpos,
    Option.getD_some, CircularBuffer.flushBuffer, List.length_replicate, and_self]

/-- C11 (as stated, refuted): `prepareToPlay` at 48000 Hz on the settled state with the
chorus phase moved to 1 and the left delay-time follower moved to 30 leaves the phase at
1, not 0, and the follower at 30, while from the settled state itself it leaves the
follower at 25: the values after the call depend on the values before it. -/
theorem prepareToPlay_keeps_phase_and_followers :
    (prepareToPlay ratMath 48000
      { settledState ratMath with chorusPhase := 1, delayTimeLeft := 30 }).chorusPhase = 1 ∧
    (prepareToPlay ratMath 48000
      { settledState ratMath with chorusPhase := 1, delayTimeLeft := 30 }).chorusPhase ≠ 0 ∧
    (prepareToPlay ratMath 48000
      { settledState ratMath with chorusPhase := 1, delayTimeLeft := 30 }).delayTimeLeft = 30 ∧
    (prepareToPlay ratMath 48000 (settledState ratMath)).delayTimeLeft = 25 ∧
    (prepareToPlay ratMath 48000
      { settledState ratMath with chorusPhase := 1, delayTimeLeft := 30 }).delayTimeLeft ≠
      (prepareToPlay ratMath 48000 (settledState ratMath)).delayTimeLeft := by
  have h1 : (prepareToPlay ratMath 48000
      { settledState ratMath with chorusPhase := 1, delayTimeLeft := 30 }).chorusPhase = 1 := rfl
  have h2 : (prepareToPlay ratMath 48000
      { settledState ratMath with chorusPhase := 1, delayTimeLeft := 30 }).delayTimeLeft = 30 :=
    rfl
  have h3 : (prepareToPlay ratMath 48000 (settledState ratMath)).delayTimeLeft = 25 := rfl
  refine ⟨h1, ?_, h2, h3, ?_⟩
  · rw [h1]
    norm_num
  · rw [h2, h3]
    norm_num

/-- C11 (amended): for every engine state and every sample rate with
`2 * sampleRate ≥ 1`, `prepareToPlay` stores the sample rate, puts each of the four
smoothed parameters at rest on the target it held before the call (current value equal
to that target, no ramp in progress, ramp lengths `floor (0.3 * sampleRate)` and
`floor (0.005 * sampleRate)` steps), and leaves both delay buffers with capacity
`floor (2 * sampleRate)`, zero-filled, cursor at 0; the chorus phase, the chorus
modulation and the four follower values are those from before the call. -/
theorem prepareToPlay_effect (m : MathLib α) (sampleRate : α) (s : ChorusAudioProcessor α)
    (h : 1 ≤ 2 * sampleRate) :
    (prepareToPlay m sampleRate s).currentSampleRate = sampleRate ∧
    ((prepareToPlay m sampleRate s).smoothedDelayTimeLeft =
        { s.smoothedDelayTimeLeft with
          currentValue := s.smoothedDelayTimeLeft.target, countdown := 0,
          stepsToTarget := ⌊3 / 10 * sampleRate⌋ } ∧
      (prepareToPlay m sampleRate s).smoothedDelayTimeRight =
        { s.smoothedDelayTimeRight with
          currentValue := s.smoothedDelayTimeRight.target, countdown := 0,
          stepsToTarget := ⌊3 / 10 * sampleRate⌋ } ∧
      (prepareToPlay m sampleRate s).smoothedChorusDepth =
        { s.smoothedChorusDepth with
          currentValue := s.smoothedChorusDepth.target, countdown := 0,
          stepsToTarget := ⌊5 / 1000 * sampleRate⌋ } ∧
      (prepareToPlay m sampleRate s).smoothedChorusRate =
        { s.smoothedChorusRate with
          currentValue := s.smoothedChorusRate.target, countdown := 0,
          stepsToTarget := ⌊5 / 1000 * sampleRate⌋ }) ∧
    ((prepareToPlay m sampleRate s).circBuffLeft.getBufferLength = ⌊2 * sampleRate⌋.toNat ∧
      (prepareToPlay m sampleRate s).circBuffRight.getBufferLength = ⌊2 * sampleRate⌋.toNat ∧
      (prepareToPlay m sampleRate s).circBuffLeft =
        { buffer := List.replicate ⌊2 * sampleRate⌋.toNat 0, writeIndex := 0 } ∧
      (prepareToPlay m sampleRate s).circBuffRight =
        { buffer := List.replicate ⌊2 * sampleRate⌋.toNat 0, writeIndex := 0 }) ∧
    ((prepareToPlay m sampleRate s).chorusPhase = s.chorusPhase ∧
      (prepareToPlay m sampleRate s).chorusModulation = s.chorusModulation ∧
      (prepareToPlay m sampleRate s).delayTimeLeft = s.delayTimeLeft ∧
      (prepareToPlay m sampleRate s).delayTimeRight = s.delayTimeRight ∧
      (prepareToPlay m sampleRate s).chorusDepth = s.chorusDepth ∧
      (prepareToPlay m sampleRate s).chorusRate = s.chorusRate) := by
  obtain ⟨hl, hr⟩ := prepareToPlay_buffers m sampleRate s h
  refine ⟨rfl, ⟨rfl, rfl, rfl, rfl⟩, ⟨?_, ?_, hl, hr⟩, ⟨rfl, rfl, rfl, rfl, rfl, rfl⟩⟩
  · rw [hl, CircularBuffer.getBufferLength, List.length_replicate]
  · rw [hr, CircularBuffer.getBufferLength, List.length_replicate]

/-- Witness for C11 at 48000 Hz on the settled state over the rationals. -/
theorem prepareToPlay_effect_witness :
    (1 : ℚ) ≤ 2 * 48000 ∧
    (prepareToPlay ratMath 48000 (settledState ratMath)).circBuffLeft.getBufferLength =
      ⌊(2 : ℚ) * 48000⌋.toNat ∧
    (prepareToPlay ratMath 48000 (settledState ratMath)).chorusPhase =
      (settledState ratMath).chorusPhase :=
  ⟨by norm_num,
    (prepareToPlay_effect ratMath 48000 (settledState ratMath) (by norm_num)).2.2.1.1,
    (prepareToPlay_effect ratMath 48000 (settledState ratMath) (by norm_num)).2.2.2.1⟩

/-! ### The one-pole follower: the step -/

/-- C13 (amended): for each channel and sample the follower lines advance the channel's
smoothed delay time by exactly two `getNextValue` steps after the target update and set
`current' = a + (b - current) * coeff`, where `a` is the value of the first and `b` of
the second call (operands evaluated left to right); when the smoothed parameter is at
rest on the target `T` both are `T` and `current' = T + (T - current) * coeff`; in a ramp
with more than two steps left `b = a + step`; and `coeff` is the
`1 - exp (-1 / (0.1 * sampleRate))` that `prepareToPlay` stored. -/
theorem follower_step (m : MathLib α) (sampleRate : α) (cs : ChainSettings α) (left : Bool)
    (s : ChorusAudioProcessor α) :
    channelSmoothed left (followDelayTime cs left s) =
      ((channelSmoothed left s).setTargetValue
        (channelTarget cs left)).getNextValue.2.getNextValue.2 ∧
    channelDelayTime left (followDelayTime cs left s) =
      (delayTimeNextValues cs left s).1 +
        ((delayTimeNextValues cs left s).2 - channelDelayTime left s) * s.coeff ∧
    ((channelSmoothed left s).target = channelTarget cs left ∧
        (channelSmoothed left s).countdown ≤ 0 →
      delayTimeNextValues cs left s = (channelTarget cs left, channelTarget cs left) ∧
      channelDelayTime left (followDelayTime cs left s) =
        channelTarget cs left +
          (channelTarget cs left - channelDelayTime left s) * s.coeff) ∧
    (2 < ((channelSmoothed left s).setTargetValue (channelTarget cs left)).countdown →
      (delayTimeNextValues cs left s).2 = (delayTimeNextValues cs left s).1 +
        ((channelSmoothed left s).setTargetValue (channelTarget cs left)).step) ∧
    (prepareToPlay m sampleRate s).coeff = 1 - m.exp (-1 / (1 / 10 * sampleRate)) := by
  obtain ⟨h1, h2, -⟩ := followDelayTime_channel cs left s
  refine ⟨h2, h1, ?_, ?_, rfl⟩
  · rintro ⟨ht, hc⟩
    have hv := (delayTimeNextValues_rest cs left s ht hc).1
    refine ⟨hv, ?_⟩
    rw [h1, hv]
  · intro hr
    have := getNextValue_ramp _ hr
    simp only [delayTimeNextValues]
    rw [this.1, this.2]

/-- Witness for C13 on the settled 48 kHz state over the rationals: at rest with the
default parameters, and in the ramp towards 40 ms. -/
theorem follower_step_witness :
    channelDelayTime true (followDelayTime (getChainSettings defaultParameters) true
      (settledState ratMath)) =
      channelTarget (getChainSettings defaultParameters) true +
        (channelTarget (getChainSettings defaultParameters) true -
          channelDelayTime true (settledState ratMath)) * (settledState ratMath).coeff ∧
    (delayTimeNextValues
      (getChainSettings (Function.update defaultParameters "Delay Left" 40)) true
      (settledState ratMath)).2 =
      (delayTimeNextValues
        (getChainSettings (Function.update defaultParameters "Delay Left" 40)) true
        (settledState ratMath)).1 +
      ((channelSmoothed true (settledState ratMath)).setTargetValue
        (channelTarget (getChainSettings
          (Function.update defaultParameters "Delay Left" 40)) true)).step := by
  constructor
  · refine ((follower_step ratMath 48000 (getChainSettings defaultParameters) true
      (settledState ratMath)).2.2.1 ⟨?_, le_refl _⟩).2
    rw [getChainSettings_defaults]
    rfl
  · refine (follower_step ratMath 48000
      (getChainSettings (Function.update defaultParameters "Delay Left" 40)) true
      (settledState ratMath)).2.2.2.1 ?_
    have ht : channelTarget (getChainSettings
        (Function.update (defaultParameters : ParameterStore ℚ) "Delay Left" 40)) true
        = 40 := by
      simp [channelTarget, newDelayTimeLeft, getChainSettings]
    rw [ht]
    show (2 : Int) < ((settledState ratMath).smoothedDelayTimeLeft.setTargetValue 40).countdown
    rw [settledState_retarget]
    show (2 : Int) < 14400
    omega

/-! ### The read offset -/

/-- From 8000 Hz on, the delay-time coefficient `1 - exp (-1 / (0.1 * sampleRate))`
lies in `[0, 1/800]`. -/
theorem coeff_small (sampleRate : ℝ) (hsr : 8000 ≤ sampleRate) :
    0 ≤ 1 - Real.exp (-1 / (1 / 10 * sampleRate)) ∧
    1 - Real.exp (-1 / (1 / 10 * sampleRate)) ≤ 1 / 800 := by
  have hy : (800 : ℝ) ≤ 1 / 10 * sampleRate := by linarith
  have hx : 1 / (1 / 10 * sampleRate) ≤ 1 / 800 :=
    one_div_le_one_div_of_le (by norm_num) hy
  have hx0 : 0 ≤ 1 / (1 / 10 * sampleRate) := by positivity
  have he : -1 / (1 / 10 * sampleRate) = -(1 / (1 / 10 * sampleRate)) := by ring
  have h1 : Real.exp (-1 / (1 / 10 * sampleRate)) ≤ 1 :=
    Real.exp_le_one_iff.mpr (by rw [he]; linarith)
  have h2 := Real.add_one_le_exp (-1 / (1 / 10 * sampleRate))
  rw [he] at h1 h2 ⊢
  constructor <;> linarith

/-- The follower output for values in `[5, 40]` and a coefficient in `[0, 1/800]`. -/
theorem follower_output_bounds (v1 v2 cur c : ℝ) (hv1 : 5 ≤ v1 ∧ v1 ≤ 40)
    (hv2 : 5 ≤ v2 ∧ v2 ≤ 40) (hcur : 5 ≤ cur ∧ cur ≤ 40) (hc : 0 ≤ c ∧ c ≤ 1 / 800) :
    4 ≤ v1 + (v2 - cur) * c ∧ v1 + (v2 - cur) * c ≤ 41 := by
  have e1 : (v2 - cur) * c ≤ 35 * c :=
    mul_le_mul_of_nonneg_right (by linarith) hc.1
  have e2 : -35 * c ≤ (v2 - cur) * c :=
    mul_le_mul_of_nonneg_right (by linarith) hc.1
  constructor <;> linarith [hc.2]

/-- The chorus blend of a follower output in `[4, 41]` with a modulation of size at most
1 and a coefficient in `[0, 1/800]` lies in `[2, 43]`. -/
theorem blend_bounds (f md c : ℝ) (hf : 4 ≤ f ∧ f ≤ 41) (hmd : |md| ≤ 1)
    (hc : 0 ≤ c ∧ c ≤ 1 / 800) :
    2 ≤ f + md + (f + md - f) * c ∧ f + md + (f + md - f) * c ≤ 43 := by
  obtain ⟨m1, m2⟩ := abs_le.mp hmd
  have e1 : md * c ≤ 1 * c := mul_le_mul_of_nonneg_right m2 hc.1
  have e2 : -1 * c ≤ md * c := mul_le_mul_of_nonneg_right m1 hc.1
  have e : f + md + (f + md - f) * c = f + md + md * c := by ring
  obtain ⟨f1, f2⟩ := hf
  obtain ⟨c1, c2⟩ := hc
  rw [e]
  constructor <;> linarith

/-- A delay time in `[2, 43]` ms at 8000 Hz or more, in samples, lies between 0 and
`2 * sampleRate - 2`, hence at most the capacity `floor (2 * sampleRate)` less 1. -/
theorem offset_inside (sampleRate dt : ℝ) (hsr : 8000 ≤ sampleRate) (hdt : 2 ≤ dt ∧ dt ≤ 43) :
    0 ≤ dt * sampleRate / 1000 ∧ dt * sampleRate / 1000 ≤ 2 * sampleRate - 1 ∧
    dt * sampleRate / 1000 ≤ ((⌊2 * sampleRate⌋.toNat : Nat) : ℝ) - 1 := by
  have h0 : 0 ≤ dt * sampleRate := mul_nonneg (by linarith) (by linarith)
  have h1 : dt * sampleRate ≤ 43 * sampleRate :=
    mul_le_mul_of_nonneg_right hdt.2 (by linarith)
  have hz : 0 ≤ ⌊2 * sampleRate⌋ := Int.floor_nonneg.mpr (by linarith)
  have hcast : ((⌊2 * sampleRate⌋.toNat : Nat) : ℝ) = ((⌊2 * sampleRate⌋ : Int) : ℝ) := by
    calc ((⌊2 * sampleRate⌋.toNat : Nat) : ℝ)
        = (((⌊2 * sampleRate⌋.toNat : Nat) : Int) : ℝ) := (Int.cast_natCast _).symm
      _ = ((⌊2 * sampleRate⌋ : Int) : ℝ) := by rw [Int.toNat_of_nonneg hz]
  have hfl := Int.lt_floor_add_one (2 * sampleRate)
  have hup : dt * sampleRate / 1000 ≤ 2 * sampleRate - 2 := by
    rw [div_le_iff₀ (by norm_num)]
    linarith
  refine ⟨div_nonneg h0 (by norm_num), by linarith, ?_⟩
  rw [hcast]
  linarith

/-- C15: at a sample rate of 8000 Hz or more, with the coefficient `prepareToPlay`
stores, in a sample step in which the channel's follower value and both values its
smoothed delay time returns lie in `[5, 40]` ms and the chorus depth lies in `[0, 1]`,
the offset `delayTime * sampleRate / 1000` handed to `readBuffer` (chorus applied or
not) lies in `[0, capacity - 1]` for the capacity `2 * sampleRate` (also rounded down);
the delay stage returns once the fuel covers the wrapping loop. -/
theorem read_offset_inside_buffer (cs : ChainSettings ℝ) (left : Bool) (sample : Nat)
    (s : ChorusAudioProcessor ℝ) (hsr : 8000 ≤ s.currentSampleRate)
    (hcoeff : s.coeff = 1 - Real.exp (-1 / (1 / 10 * s.currentSampleRate)))
    (hcur : 5 ≤ channelDelayTime left s ∧ channelDelayTime left s ≤ 40)
    (hv1 : 5 ≤ (delayTimeNextValues cs left s).1 ∧ (delayTimeNextValues cs left s).1 ≤ 40)
    (hv2 : 5 ≤ (delayTimeNextValues cs left s).2 ∧ (delayTimeNextValues cs left s).2 ≤ 40)
    (hdepth : 0 ≤ s.chorusDepth ∧ s.chorusDepth ≤ 1) :
    (∀ (fuel : Nat) (s1 : ChorusAudioProcessor ℝ),
      delayStage (MathLib.mk Real.sin Real.exp Real.pi) fuel cs left sample s = some s1 →
      0 ≤ channelDelayTime left s1 * s1.currentSampleRate / 1000 ∧
      channelDelayTime left s1 * s1.currentSampleRate / 1000
        ≤ 2 * s.currentSampleRate - 1 ∧
      channelDelayTime left s1 * s1.currentSampleRate / 1000
        ≤ ((⌊2 * s.currentSampleRate⌋.toNat : Nat) : ℝ) - 1) ∧
    ∃ fuel0 : Nat, ∀ fuel : Nat, fuel0 ≤ fuel →
      (delayStage (MathLib.mk Real.sin Real.exp Real.pi) fuel cs left sample s).isSome
        = true := by
  have hc := coeff_small s.currentSampleRate hsr
  rw [← hcoeff] at hc
  obtain ⟨hf1, -, -, hf4, hf5, hf6, -⟩ := followDelayTime_channel cs left s
  have hfb := follower_output_bounds _ _ _ _ hv1 hv2 hcur hc
  rw [← hf1] at hfb
  constructor
  · intro fuel s1 h
    simp only [delayStage] at h
    split_ifs at h with hg
    · obtain ⟨hd1, -, -⟩ := applyChorus_delayTime _ fuel sample left _ s1 h
      obtain ⟨hm, -, -, -, hs⟩ := applyChorus_some _ fuel sample left _ s1 h
      have hmd : |s1.chorusModulation| ≤ 1 := by
        rw [hm, abs_mul, hf6, abs_of_nonneg hdepth.1]
        calc s.chorusDepth * |Real.sin _| ≤ 1 * 1 :=
              mul_le_mul hdepth.2 (Real.abs_sin_le_one _) (abs_nonneg _) (by norm_num)
          _ = 1 := by norm_num
      have hb := blend_bounds _ _ (followDelayTime cs left s).coeff hfb hmd
        (by rw [hf4]; exact hc)
      rw [← hd1] at hb
      rw [hs, hf5]
      exact offset_inside _ _ hsr ⟨hb.1, hb.2⟩
    · have hs1 : followDelayTime cs left s = s1 := Option.some.inj h
      rw [← hs1, hf5]
      exact offset_inside _ _ hsr ⟨by linarith [hfb.1], by linarith [hfb.2]⟩
  · obtain ⟨fuel0, hf⟩ := applyChorus_returns (MathLib.mk Real.sin Real.exp Real.pi)
      sample left (followDelayTime cs left s) Real.pi_pos
    refine ⟨fuel0, fun fuel hfuel => ?_⟩
    simp only [delayStage]
    split_ifs
    · exact hf fuel hfuel
    · rfl

/-- Witness for C15 on the settled 48 kHz state over the reals with the default
parameters. -/
theorem read_offset_inside_buffer_witness :
    (8000 : ℝ) ≤ (settledState (MathLib.mk Real.sin Real.exp Real.pi)).currentSampleRate ∧
    ∃ fuel0 : Nat, ∀ fuel : Nat, fuel0 ≤ fuel →
      (delayStage (MathLib.mk Real.sin Real.exp Real.pi) fuel
        (getChainSettings defaultParameters) true 0
        (settledState (MathLib.mk Real.sin Real.exp Real.pi))).isSome = true := by
  have hsr : (8000 : ℝ) ≤
      (settledState (MathLib.mk Real.sin Real.exp Real.pi)).currentSampleRate := by
    show (8000 : ℝ) ≤ 48000
    norm_num
  have hv := (delayTimeNextValues_rest (getChainSettings (defaultParameters : ParameterStore ℝ))
    true (settledState (MathLib.mk Real.sin Real.exp Real.pi))
    (by rw [getChainSettings_defaults]; rfl) (le_refl _)).1
  have ht : channelTarget (getChainSettings (defaultParameters : ParameterStore ℝ)) true
      = 25 := by
    rw [getChainSettings_defaults]
    rfl
  refine ⟨hsr, (read_offset_inside_buffer (getChainSettings defaultParameters) true 0
    (settledState (MathLib.mk Real.sin Real.exp Real.pi)) hsr rfl ?_ ?_ ?_ ?_).2⟩
  · show (5 : ℝ) ≤ 25 ∧ (25 : ℝ) ≤ 40
    norm_num
  · rw [hv, ht]
    norm_num
  · rw [hv, ht]
    norm_num
  · show (0 : ℝ) ≤ 1 / 4 ∧ (1 / 4 : ℝ) ≤ 1
    norm_num

/-! ### Convergence of the follower -/

/-- For a positive sample rate the two coefficients `prepareToPlay` stores satisfy
`0 < coeff < coeff_chrs < 1`. -/
theorem coefficients_ordered (sampleRate : ℝ) (hsr : 0 < sampleRate) :
    0 < 1 - Real.exp (-1 / (1 / 10 * sampleRate)) ∧
    1 - Real.exp (-1 / (1 / 10 * sampleRate)) <
      1 - Real.exp (-1 / (1 / 100 * sampleRate)) ∧
    1 - Real.exp (-1 / (1 / 100 * sampleRate)) < 1 := by
  have h1 : (0 : ℝ) < 1 / 100 * sampleRate := by positivity
  have h2 : 1 / 100 * sampleRate < 1 / 10 * sampleRate := by linarith
  have h3 : 1 / (1 / 10 * sampleRate) < 1 / (1 / 100 * sampleRate) :=
    one_div_lt_one_div_of_lt h1 h2
  have h4 : (0 : ℝ) < 1 / (1 / 10 * sampleRate) := by positivity
  have e1 : -1 / (1 / 10 * sampleRate) = -(1 / (1 / 10 * sampleRate)) := by ring
  have e2 : -1 / (1 / 100 * sampleRate) = -(1 / (1 / 100 * sampleRate)) := by ring
  rw [e1, e2]
  have a1 : Real.exp (-(1 / (1 / 10 * sampleRate))) < 1 :=
    Real.exp_lt_one_iff.mpr (by linarith)
  have a2 : Real.exp (-(1 / (1 / 100 * sampleRate))) <
      Real.exp (-(1 / (1 / 10 * sampleRate))) := Real.exp_lt_exp.mpr (by linarith)
  have a3 := Real.exp_pos (-(1 / (1 / 100 * sampleRate)))
  refine ⟨by linarith, by linarith, by linarith⟩

/-- C16: for every positive sample rate the coefficients `prepareToPlay` stores satisfy
`0 < coeff < coeff_chrs < 1`; with that `coeff` and the channel's smoothed delay time at
rest on the target `T` (both `getNextValue` calls return `T`), one follower step maps the
error `e = current - T` to `-coeff * e`, so for `current ≠ T` the new value is strictly
closer to `T` and on the other side of it, `n` steps give the error `(-coeff) ^ n * e`,
and the delay time converges to `T`. -/
theorem follower_convergence (sampleRate : ℝ) (hsr : 0 < sampleRate)
    (s0 s : ChorusAudioProcessor ℝ) (cs : ChainSettings ℝ) (left : Bool)
    (hcoeff : s.coeff =
      (prepareToPlay (MathLib.mk Real.sin Real.exp Real.pi) sampleRate s0).coeff)
    (ht : (channelSmoothed left s).target = channelTarget cs left)
    (hcd : (channelSmoothed left s).countdown ≤ 0) :
    (0 < (prepareToPlay (MathLib.mk Real.sin Real.exp Real.pi) sampleRate s0).coeff ∧
      (prepareToPlay (MathLib.mk Real.sin Real.exp Real.pi) sampleRate s0).coeff <
        (prepareToPlay (MathLib.mk Real.sin Real.exp Real.pi) sampleRate s0).coeff_chrs ∧
      (prepareToPlay (MathLib.mk Real.sin Real.exp Real.pi) sampleRate s0).coeff_chrs < 1) ∧
    delayTimeNextValues cs left s = (channelTarget cs left, channelTarget cs left) ∧
    channelDelayTime left (followDelayTime cs left s) - channelTarget cs left =
      -s.coeff * (channelDelayTime left s - channelTarget cs left) ∧
    (channelDelayTime left s ≠ channelTarget cs left →
      |channelDelayTime left (followDelayTime cs left s) - channelTarget cs left| <
        |channelDelayTime left s - channelTarget cs left| ∧
      (channelDelayTime left (followDelayTime cs left s) - channelTarget cs left) *
        (channelDelayTime left s - channelTarget cs left) < 0) ∧
    (∀ n : Nat,
      channelDelayTime left ((followDelayTime cs left)^[n] s) - channelTarget cs left =
        (-s.coeff) ^ n * (channelDelayTime left s - channelTarget cs left)) ∧
    Filter.Tendsto (fun n : Nat => channelDelayTime left ((followDelayTime cs left)^[n] s))
      Filter.atTop (nhds (channelTarget cs left)) := by
  have hco := coefficients_ordered sampleRate hsr
  have hc0 : 0 < s.coeff := by rw [hcoeff]; exact hco.1
  have hc1 : s.coeff < 1 := by
    rw [hcoeff]
    exact lt_trans hco.2.1 hco.2.2
  have hit := followDelayTime_iterate_rest cs left s ht hcd
  have hstep : channelDelayTime left (followDelayTime cs left s) - channelTarget cs left =
      -s.coeff * (channelDelayTime left s - channelTarget cs left) := by
    have := (hit 1).2.2
    simpa using this
  refine ⟨hco, (delayTimeNextValues_rest cs left s ht hcd).1, hstep, ?_,
    fun n => (hit n).2.2, ?_⟩
  · intro hne
    have he : channelDelayTime left s - channelTarget cs left ≠ 0 := sub_ne_zero.mpr hne
    have hpos : 0 < |channelDelayTime left s - channelTarget cs left| := abs_pos.mpr he
    constructor
    · rw [hstep, abs_mul, abs_neg, abs_of_pos hc0]
      nlinarith
    · rw [hstep]
      have hsq : 0 < (channelDelayTime left s - channelTarget cs left) ^ 2 := by positivity
      nlinarith
  · have h0 : Filter.Tendsto (fun n : Nat => (-s.coeff) ^ n) Filter.atTop (nhds 0) :=
      tendsto_pow_atTop_nhds_zero_of_abs_lt_one (by rw [abs_neg, abs_of_pos hc0]; exact hc1)
    have h1 := (h0.mul_const (channelDelayTime left s - channelTarget cs left)).const_add
      (channelTarget cs left)
    simp only [zero_mul, add_zero] at h1
    refine h1.congr (fun n => ?_)
    have := (hit n).2.2
    linarith

/-- Witness for C16 at 48000 Hz on the settled state over the reals with the default
parameters. -/
theorem follower_convergence_witness :
    (0 : ℝ) < 48000 ∧
    Filter.Tendsto
      (fun n : Nat => channelDelayTime true
        ((followDelayTime (getChainSettings defaultParameters) true)^[n]
          (settledState (MathLib.mk Real.sin Real.exp Real.pi))))
      Filter.atTop (nhds (channelTarget (getChainSettings defaultParameters) true)) :=
  ⟨by norm_num,
    (follower_convergence 48000 (by norm_num)
      (settledState (MathLib.mk Real.sin Real.exp Real.pi))
      (settledState (MathLib.mk Real.sin Real.exp Real.pi))
      (getChainSettings defaultParameters) true rfl
      (by rw [getChainSettings_defaults]; rfl) (le_refl _)).2.2.2.2.2⟩

/-! ### Output mix and buffer write -/

/-- C1: for channel 0 and channel 1, the value a sample step of `processBlock` leaves
in `outData[sample]` is `wetScale * input + dryWet * delayedSample` with `dryWet = 1`
and `wetScale = (1 - dryWet) + dryWet * 0.5`, that is `0.5 * input + delayedSample`,
where `delayedSample` is read from the channel's buffer in the same step (at the delay
time the follower and the chorus guard produced); the step returns exactly when that
delay stage does. -/
theorem processSample_output (m : MathLib α) (fuel : Nat) (cs : ChainSettings α)
    (sample : Nat) (x : α) (s : ChorusAudioProcessor α) :
    (dryWet : α) = 1 ∧ (wetScale : α) = (1 - dryWet) + dryWet * (1 / 2) ∧
    (∀ (left : Bool) (s1 : ChorusAudioProcessor α),
      (mixStage left x s1).2 = wetScale * x + dryWet *
        (channelBuffer left s1).readBuffer
          (channelDelayTime left s1 * s1.currentSampleRate / 1000)) ∧
    (processSample m fuel cs 0 sample x s).map Prod.snd =
      (delayStage m fuel cs true sample s).map (fun s1 =>
        1 / 2 * x + s1.circBuffLeft.readBuffer
          (s1.delayTimeLeft * s1.currentSampleRate / 1000)) ∧
    (processSample m fuel cs 1 sample x s).map Prod.snd =
      (delayStage m fuel cs false sample s).map (fun s1 =>
        1 / 2 * x + s1.circBuffRight.readBuffer
          (s1.delayTimeRight * s1.currentSampleRate / 1000)) := by
  refine ⟨rfl, rfl, fun left s1 => mixStage_out left x s1, ?_, ?_⟩
  · simp only [processSample, if_true, Option.map_map]
    congr 1
    funext s1
    simp [mixStage, wetScale, dryWet]
  · simp only [processSample, Nat.succ_ne_zero, one_ne_zero, if_false, if_true,
      Option.map_map]
    congr 1
    funext s1
    simp [mixStage, wetScale, dryWet]

/-- On finite samples (the field model): the value handed to `writeBuffer` for input `x`
and a finite delayed sample `y` is `x`, and after a sample step of channel 0 or 1 that
channel's delay buffer is the buffer of the delay stage with `x` written into it. -/
theorem delay_buffer_write_finite (m : MathLib α) (fuel : Nat) (cs : ChainSettings α)
    (sample : Nat) (x : α) (s : ChorusAudioProcessor α) :
    (∀ y : α, writtenSample x y = x) ∧
    (∀ (left : Bool) (s1 : ChorusAudioProcessor α),
      channelBuffer left (mixStage left x s1).1 = (channelBuffer left s1).writeBuffer x) ∧
    (processSample m fuel cs 0 sample x s).map (fun r => r.1.circBuffLeft) =
      (delayStage m fuel cs true sample s).map (fun s1 => s1.circBuffLeft.writeBuffer x) ∧
    (processSample m fuel cs 1 sample x s).map (fun r => r.1.circBuffRight) =
      (delayStage m fuel cs false sample s).map (fun s1 => s1.circBuffRight.writeBuffer x) := by
  refine ⟨fun y => by simp [writtenSample], fun left s1 => mixStage_buffer left x s1, ?_, ?_⟩
  · simp only [processSample, if_true, Option.map_map]
    congr 1
    funext s1
    simp [mixStage, writtenSample]
  · simp only [processSample, Nat.succ_ne_zero, one_ne_zero, if_false, if_true,
      Option.map_map]
    congr 1
    funext s1
    simp [mixStage, writtenSample]

end Theorems

end Chorus
